import Mathlib

/-!
Verification of the allstar-agent ingest-and-grade pipeline.

Shallow embedding of the core of the `allstar-agent` repository
(pipeline orchestrator, grading engine, response parsing, dedup and
upsert persistence helpers), with theorems settling the specified
properties of the system.

External effects (the Anthropic model call, the Supabase persistence
calls, wall-clock timestamps) are modelled as oracle inputs carried by
explicit environment records; each oracle returns the `Except` value
the corresponding `await` would produce.
-/

namespace Allstar

/-! ## JavaScript string primitives

`String.prototype.trim` and the `\s` character class of JS regular
expressions share the WhiteSpace/LineTerminator character set.  We work
on `List Char` throughout. -/

/-- The JS WhiteSpace and LineTerminator set (used by `trim` and regex `\s`). -/
def isJsWs (c : Char) : Bool :=
  let n := c.toNat
  n = 32 || n = 9 || n = 10 || n = 13 || n = 11 || n = 12 ||
  n = 0xa0 || n = 0x1680 || (0x2000 ≤ n && n ≤ 0x200a) ||
  n = 0x2028 || n = 0x2029 || n = 0x202f || n = 0x205f || n = 0x3000 || n = 0xfeff

/-- Drop leading JS whitespace. -/
def trimLeftWs (l : List Char) : List Char := l.dropWhile isJsWs

/-- Drop trailing JS whitespace. -/
def trimRightWs (l : List Char) : List Char := (l.reverse.dropWhile isJsWs).reverse

/-- Model of the JS trim method, on character lists. -/
def jsTrim (l : List Char) : List Char := trimRightWs (trimLeftWs l)

/-- The backtick character. -/
def btk : Char := Char.ofNat 96

/-- Does the list start with three backticks (the fence delimiter)? -/
def isTriple (l : List Char) : Bool :=
  match l with
  | a :: b :: c :: _ => a = btk && b = btk && c = btk
  | _ => false

/-- Does a fence delimiter occur anywhere in the list? -/
def hasTB : List Char → Bool
  | a :: b :: c :: rest => isTriple (a :: b :: c :: rest) || hasTB (b :: c :: rest)
  | _ => false

/-- Characters strictly before the first fence delimiter; `none` if there is
no fence delimiter.  Models the lazy group plus closing fence of the source
regex `/(?:json)?\s*([\s\S]*?)(close fence)/` once positioned. -/
def findClose : List Char → Option (List Char)
  | [] => none
  | a :: rest =>
    if isTriple (a :: rest) then some []
    else (findClose rest).map (fun l => a :: l)

/-- The characters of the optional `json` language tag. -/
def jsonTag : List Char := ['j', 's', 'o', 'n']

/-- Attempt the part of the fence regex after an opening delimiter:
greedily take an optional `json` tag, then greedy `\s*`, then the lazy
capture up to the next fence delimiter. -/
def tryFence (rest : List Char) : Option (List Char) :=
  let r1 := if rest.take 4 = jsonTag then rest.drop 4 else rest
  findClose (r1.dropWhile isJsWs)

/-- Leftmost-match scan of the source regex: at each position, if an opening
delimiter is present and the rest of the pattern matches, return the capture;
otherwise advance one character, as a backtracking regex engine does. -/
def fenceScan : List Char → Option (List Char)
  | [] => none
  | a :: rest =>
    if isTriple (a :: rest) then
      match tryFence (rest.drop 2) with
      | some cap => some cap
      | none => fenceScan rest
    else fenceScan rest

/-! ## JSON values and `JSON.parse`

JSON numbers are modelled as rationals (the shallow embedding of JS
numbers); JSON whitespace is space, tab, LF, CR. -/

inductive Json where
  | null : Json
  | bool (b : Bool) : Json
  | num (q : ℚ) : Json
  | str (s : String) : Json
  | arr (elems : List Json) : Json
  | obj (fields : List (String × Json)) : Json

/-- JSON token whitespace. -/
def isJsonWs (c : Char) : Bool :=
  c = ' ' || c = '\t' || c = '\n' || c = '\r'

/-- Skip JSON whitespace. -/
def skipWs (l : List Char) : List Char := l.dropWhile isJsonWs

/-- Decimal digit test. -/
def isDig (c : Char) : Bool := 48 ≤ c.toNat && c.toNat ≤ 57

/-- Hex digit value. -/
def hexVal (c : Char) : Option Nat :=
  if 48 ≤ c.toNat && c.toNat ≤ 57 then some (c.toNat - 48)
  else if 97 ≤ c.toNat && c.toNat ≤ 102 then some (c.toNat - 87)
  else if 65 ≤ c.toNat && c.toNat ≤ 70 then some (c.toNat - 55)
  else none

/-- Digits to a natural number. -/
def digitsToNat (ds : List Char) : Nat :=
  ds.foldl (fun n c => n * 10 + (c.toNat - 48)) 0

/-- Parse the body of a JSON string after the opening quote; returns the
decoded string and the characters after the closing quote. -/
def parseStringBody : Nat → List Char → List Char → Option (String × List Char)
  | 0, _, _ => none
  | _ + 1, _, [] => none
  | fuel + 1, acc, c :: cs =>
    if c.toNat = 34 then some (String.mk acc.reverse, cs)
    else if c.toNat = 92 then
      match cs with
      | [] => none
      | e :: cs2 =>
        if e.toNat = 34 then parseStringBody fuel (Char.ofNat 34 :: acc) cs2
        else if e.toNat = 92 then parseStringBody fuel (Char.ofNat 92 :: acc) cs2
        else if e.toNat = 47 then parseStringBody fuel (Char.ofNat 47 :: acc) cs2
        else if e = 'b' then parseStringBody fuel (Char.ofNat 8 :: acc) cs2
        else if e = 'f' then parseStringBody fuel (Char.ofNat 12 :: acc) cs2
        else if e = 'n' then parseStringBody fuel (Char.ofNat 10 :: acc) cs2
        else if e = 'r' then parseStringBody fuel (Char.ofNat 13 :: acc) cs2
        else if e = 't' then parseStringBody fuel (Char.ofNat 9 :: acc) cs2
        else if e = 'u' then
          match cs2 with
          | h1 :: h2 :: h3 :: h4 :: cs3 =>
            match hexVal h1, hexVal h2, hexVal h3, hexVal h4 with
            | some a, some b, some c3, some d =>
              parseStringBody fuel (Char.ofNat (((a * 16 + b) * 16 + c3) * 16 + d) :: acc) cs3
            | _, _, _, _ => none
          | _ => none
        else none
    else if c.toNat < 32 then none
    else parseStringBody fuel (c :: acc) cs

/-- Parse a JSON number (sign, integer part, optional fraction and exponent)
into a rational. -/
def parseNumberChars (l : List Char) : Option (ℚ × List Char) :=
  let signed : Bool × List Char :=
    match l with
    | c :: r => if c = '-' then (true, r) else (false, l)
    | [] => (false, l)
  let neg := signed.1
  let l1 := signed.2
  match l1 with
  | [] => none
  | c :: r =>
    if !(isDig c) then none
    else
      let intPart : List Char × List Char :=
        if c = '0' then (['0'], r) else (l1.takeWhile isDig, l1.dropWhile isDig)
      let ip := intPart.1
      let rest1 := intPart.2
      let fracPart : Option (List Char × List Char) :=
        match rest1 with
        | d :: r2 =>
          if d = '.' then
            let fds := r2.takeWhile isDig
            if fds.isEmpty then none else some (fds, r2.dropWhile isDig)
          else some ([], rest1)
        | [] => some ([], rest1)
      match fracPart with
      | none => none
      | some (fds, rest2) =>
        let expPart : Option (Int × List Char) :=
          match rest2 with
          | e :: r3 =>
            if e = 'e' || e = 'E' then
              let esigned : Bool × List Char :=
                match r3 with
                | s :: r4 => if s = '-' then (true, r4) else if s = '+' then (false, r4) else (false, r3)
                | [] => (false, r3)
              let eds := esigned.2.takeWhile isDig
              if eds.isEmpty then none
              else
                let ev : Int := Int.ofNat (digitsToNat eds)
                some (if esigned.1 then -ev else ev, esigned.2.dropWhile isDig)
            else some (0, rest2)
          | [] => some (0, rest2)
        match expPart with
        | none => none
        | some (ex, rest3) =>
          let mag : ℚ :=
            ((digitsToNat ip : ℚ) + (digitsToNat fds : ℚ) / ((10 : ℚ) ^ fds.length)) *
              (10 : ℚ) ^ ex
          some (if neg then -mag else mag, rest3)

mutual

/-- Parse one JSON value at the current position (no leading whitespace). -/
def parseValue : Nat → List Char → Option (Json × List Char)
  | 0, _ => none
  | _ + 1, [] => none
  | fuel + 1, c :: cs =>
    if c.toNat = 34 then
      (parseStringBody (cs.length + 1) [] cs).map (fun p => (Json.str p.1, p.2))
    else if c = 't' then
      if cs.take 3 = ['r', 'u', 'e'] then some (Json.bool true, cs.drop 3) else none
    else if c = 'f' then
      if cs.take 4 = ['a', 'l', 's', 'e'] then some (Json.bool false, cs.drop 4) else none
    else if c = 'n' then
      if cs.take 3 = ['u', 'l', 'l'] then some (Json.null, cs.drop 3) else none
    else if c.toNat = 91 then
      match skipWs cs with
      | d :: ds => if d.toNat = 93 then some (Json.arr [], ds)
                   else (parseElems fuel (skipWs cs)).map (fun p => (Json.arr p.1, p.2))
      | [] => none
    else if c.toNat = 123 then
      match skipWs cs with
      | d :: ds => if d.toNat = 125 then some (Json.obj [], ds)
                   else (parseMembers fuel (skipWs cs)).map (fun p => (Json.obj p.1, p.2))
      | [] => none
    else if c = '-' || isDig c then
      (parseNumberChars (c :: cs)).map (fun p => (Json.num p.1, p.2))
    else none

/-- Parse the comma-separated elements of a non-empty JSON array. -/
def parseElems : Nat → List Char → Option (List Json × List Char)
  | 0, _ => none
  | fuel + 1, l =>
    match parseValue fuel l with
    | none => none
    | some (v, rest) =>
      match skipWs rest with
      | c :: cs =>
        if c = ',' then (parseElems fuel (skipWs cs)).map (fun p => (v :: p.1, p.2))
        else if c.toNat = 93 then some ([v], cs)
        else none
      | [] => none

/-- Parse the members of a non-empty JSON object. -/
def parseMembers : Nat → List Char → Option (List (String × Json) × List Char)
  | 0, _ => none
  | fuel + 1, l =>
    match l with
    | [] => none
    | c :: cs =>
      if c.toNat = 34 then
        match parseStringBody (cs.length + 1) [] cs with
        | none => none
        | some (key, rest) =>
          match skipWs rest with
          | d :: ds =>
            if d = ':' then
              match parseValue fuel (skipWs ds) with
              | none => none
              | some (v, rest2) =>
                match skipWs rest2 with
                | e :: es =>
                  if e = ',' then
                    (parseMembers fuel (skipWs es)).map (fun p => ((key, v) :: p.1, p.2))
                  else if e.toNat = 125 then some ([(key, v)], es)
                  else none
                | [] => none
            else none
          | [] => none
      else none

end

/-- Model of JSON.parse: parse a complete JSON text, rejecting trailing garbage. -/
def jsonParse (s : String) : Option Json :=
  match parseValue (2 * s.data.length + 2) (skipWs s.data) with
  | some (v, rest) => if (skipWs rest).isEmpty then some v else none
  | none => none

/-- Last-wins field lookup, matching JS object construction from duplicate
JSON keys. -/
def lookupField (fields : List (String × Json)) (k : String) : Option Json :=
  fields.foldl (fun acc p => if p.1 = k then some p.2 else acc) none

end Allstar

namespace Allstar

/-! ## Grading response parsing (`gradeListing` in grader.ts)

The source trims the model text, extracts a fenced block when present,
applies `JSON.parse`, and validates the dynamic value: `score` must be a
number, `grade` and `rationale` strings; `flags` defaults to `[]` unless
it is an array (its elements are not validated). -/

/-- A validated grading verdict. -/
structure GradeResult where
  score : ℚ
  grade : String
  rationale : String
  flags : List Json

/-- The `typeof` validation of the parsed response; `none` models the thrown
`Invalid grade response structure` error (and the property access failure on
a non-object). -/
def validateGradeCore (v : Json) : Option GradeResult :=
  match v with
  | Json.obj fields =>
    match lookupField fields "score", lookupField fields "grade",
          lookupField fields "rationale" with
    | some (Json.num q), some (Json.str g), some (Json.str r) =>
      let flags : List Json :=
        match lookupField fields "flags" with
        | some (Json.arr xs) => xs
        | _ => []
      some ⟨q, g, r, flags⟩
    | _, _, _ => none
  | _ => none

/-- Validation producing the source error message (which embeds the raw
response text). -/
def validateGrade (v : Json) (raw : String) : Except String GradeResult :=
  match validateGradeCore v with
  | some r => Except.ok r
  | none => Except.error ("Invalid grade response structure: " ++ raw)

/-- Fence extraction step on trimmed text: the capture of the fence regex,
trimmed, when the regex matches; the trimmed raw text otherwise. -/
def extractChars (s : List Char) : List Char :=
  let raw := jsTrim s
  match fenceScan raw with
  | some cap => jsTrim cap
  | none => raw

/-- The response-parsing step of `gradeListing`: trim, extract a fenced
block when present, `JSON.parse`, validate. -/
def parseGradeResponse (text : String) : Except String GradeResult :=
  let raw := jsTrim text.data
  let jsonStr : List Char :=
    match fenceScan raw with
    | some cap => jsTrim cap
    | none => raw
  match jsonParse (String.mk jsonStr) with
  | none => Except.error ("Unexpected token in JSON at " ++ String.mk jsonStr)
  | some v => validateGrade v (String.mk raw)

/-- Model of `gradeListing`: in dry-run mode a fixed neutral result is synthesized
before any external call; otherwise `resp` is the outcome of the model
call (rendered prompt included), `Except.error` covering network failure
and a missing text block, and the text is parsed and validated. -/
def gradeListing (dryRun : Bool) (resp : Except String String) : Except String GradeResult :=
  if dryRun then Except.ok ⟨50, "C", "DRY RUN", []⟩
  else
    match resp with
    | Except.error e => Except.error e
    | Except.ok text => parseGradeResponse text

/-! ## Data model -/

/-- A persisted listing row as selected for grading (db.ts `Listing`). -/
structure Listing where
  id : String
  title : String
  price : Option String
  price_cents : Option Int
  link : Option String
  image : Option String
  source : String
  external_id : String
  condition : Option String
  listing_date : Option String
  location : Option String
  seller_name : Option String
  description : Option String
deriving DecidableEq, Repr

/-- An ephemeral scraped listing (scrapers/types.ts `ScrapedListing`);
`raw_data` is an uninterpreted provenance blob. -/
structure ScrapedListing where
  title : String
  price : Option String
  price_cents : Option Int
  link : Option String
  image : Option String
  source : String
  external_id : String
  condition : Option String
  listing_date : Option String
  location : Option String
  seller_name : Option String
  description : Option String
  raw_data : List (String × String)
deriving DecidableEq, Repr

/-- Pipeline audit events (db.ts `logEvent` calls; `logEvent` itself never
throws, so event emission is modelled as pure accumulation). -/
inductive Ev where
  | scrapeStarted (source : String)
  | scrapeCompleted (source : String) (count : Nat)
  | listingsStored (count : Nat)
  | gradeStarted (l : Listing)
  | gradeCompleted (l : Listing) (score : ℚ) (grade : String)
  | gradeFailed (err : String)
  | runCompleted (scraped graded failedCount : Nat) (avg : Option Int)
  | runFailed (err : String)
deriving DecidableEq, Repr

/-- Aggregate statistics returned by `gradeInBatches`. -/
structure GradeStats where
  graded : Nat
  failed : Nat
  averageScore : Int
deriving DecidableEq, Repr

/-- Model of JS Math.round: round half toward positive infinity, i.e. the floor of
`q + 1/2`. -/
def jsRound (q : ℚ) : Int := Rat.floor (q + 1 / 2)

/-! ## Grading engine (`gradeInBatches` in grader.ts) -/

/-- Oracles for the per-item external calls of the grading engine: the
model response for a listing (the system prompt is fixed per run and
absorbed into the oracle) and the `insertGrade` persistence outcome. -/
structure GradeEnv where
  resp : Listing → Except String String
  insertRes : Listing → Except String Unit

/-- One item of a concurrency chunk: emit `grade_started`, call
`gradeListing`, persist the grade, emit `grade_completed`; any failure
rejects the promise with the events emitted so far kept. -/
def itemRun (g : GradeEnv) (dryRun : Bool) (l : Listing) :
    Except String GradeResult × List Ev :=
  match gradeListing dryRun (g.resp l) with
  | Except.error e => (Except.error e, [Ev.gradeStarted l])
  | Except.ok r =>
    match g.insertRes l with
    | Except.error e => (Except.error e, [Ev.gradeStarted l])
    | Except.ok _ => (Except.ok r, [Ev.gradeStarted l, Ev.gradeCompleted l r.score r.grade])

/-- The settled outcome of one item. -/
def itemResult (g : GradeEnv) (dryRun : Bool) (l : Listing) : Except String GradeResult :=
  (itemRun g dryRun l).1

/-- Running accumulator of the engine loops. -/
structure Accum where
  graded : Nat
  failed : Nat
  totalScore : ℚ
  evs : List Ev

/-- The result-inspection loop body over settled promises: fulfilled
increments `graded` and the score total; rejected increments `failed`
and emits a `grade_failed` event. -/
def settleOne (acc : Accum) (r : Except String GradeResult) : Accum :=
  match r with
  | Except.ok res => { acc with graded := acc.graded + 1, totalScore := acc.totalScore + res.score }
  | Except.error e => { acc with failed := acc.failed + 1, evs := acc.evs ++ [Ev.gradeFailed e] }

/-- One concurrency chunk: dispatch every item (`Promise.allSettled`
preserves order and settles all), append their events, then inspect the
settled results. -/
def processChunk (g : GradeEnv) (dryRun : Bool) (acc : Accum) (chunk : List Listing) : Accum :=
  let results := chunk.map (itemRun g dryRun)
  let acc1 := { acc with evs := acc.evs ++ (results.map Prod.snd).flatten }
  (results.map Prod.fst).foldl settleOne acc1

/-- Fuelled chunking loop: `for (i = 0; i < len; i += b) slice(i, i + b)`. -/
def chunksGo (b : Nat) : Nat → List Listing → List (List Listing)
  | _, [] => []
  | 0, _ :: _ => []
  | fuel + 1, x :: xs => ((x :: xs).take b) :: chunksGo b fuel ((x :: xs).drop b)

/-- Partition into sequential chunks of size `b` (last chunk may be short). -/
def chunks (b : Nat) (l : List Listing) : List (List Listing) := chunksGo b l.length l

/-- One batch: inner loop over concurrency chunks. -/
def processBatch (g : GradeEnv) (dryRun : Bool) (concurrency : Nat)
    (acc : Accum) (batch : List Listing) : Accum :=
  (chunks concurrency batch).foldl (processChunk g dryRun) acc

/-- Model of `gradeInBatches`: outer loop over batches, inner loop over concurrency
chunks, per-item dispatch with settled-result inspection, and final
statistics with the guarded integer-rounded average. -/
def gradeInBatches (g : GradeEnv) (dryRun : Bool) (batchSize concurrency : Nat)
    (listings : List Listing) : GradeStats × List Ev :=
  let fin := (chunks batchSize listings).foldl (processBatch g dryRun concurrency)
    ⟨0, 0, 0, []⟩
  (⟨fin.graded, fin.failed,
    if fin.graded > 0 then jsRound (fin.totalScore / (fin.graded : ℚ)) else 0⟩, fin.evs)

end Allstar

namespace Allstar

/-! ## Persistence layer (db.ts): listings table, dedupe, upsert

The `listings` table is keyed by the unique `url` column; the Supabase
upsert conflicting on the url column inserts a new row or updates the row at
the conflicting key (keeping its `id`).  Rows assigned on insert get
fresh identifiers from a counter. -/

/-- JS `x || null` on an optional string (empty string is falsy). -/
def orNullStr (o : Option String) : Option String :=
  match o with
  | some s => if s = "" then none else some s
  | none => none

/-- JS `x || null` on an optional integer (zero is falsy). -/
def orNullInt (o : Option Int) : Option Int :=
  match o with
  | some v => if v = 0 then none else some v
  | none => none

/-- A row of the `listings` table as written by `upsertListings`. -/
structure DbRow where
  id : String
  url : String
  source : String
  external_id : Option String
  title : String
  price_cents : Option Int
  price_text : Option String
  location : Option String
  seller_name : Option String
  image_urls : Option (List String)
  condition : Option String
  listing_date : Option String
  description : Option String
  raw_data : List (String × String)
  scraped_at : String
deriving DecidableEq, Repr

/-- The `listings` table with its insert-id counter. -/
structure Store where
  rows : List DbRow
  nextId : Nat
deriving DecidableEq, Repr

/-- A stored reference returned by the upsert select of id and url. -/
structure StoredListing where
  id : String
  url : String
deriving DecidableEq, Repr

/-- The truthiness filter `listings.filter((l) => l.link)`. -/
def linkTruthy (l : ScrapedListing) : Bool :=
  match l.link with
  | some s => decide (s ≠ "")
  | none => false

/-- The row mapping of `upsertListings` (id assigned by the store). -/
def toRow (now : String) (l : ScrapedListing) : DbRow :=
  { id := ""
    url := l.link.getD ""
    source := l.source
    external_id := if l.external_id = "" then none else some l.external_id
    title := l.title
    price_cents := orNullInt l.price_cents
    price_text := orNullStr l.price
    location := orNullStr l.location
    seller_name := orNullStr l.seller_name
    image_urls :=
      match l.image with
      | some s => if s = "" then none else some [s]
      | none => none
    condition := orNullStr l.condition
    listing_date := orNullStr l.listing_date
    description := orNullStr l.description
    raw_data := l.raw_data
    scraped_at := now }

/-- Conflict update: replace the row at the (unique) conflicting `url`,
keeping its assigned `id`. -/
def replaceFirst : List DbRow → DbRow → List DbRow
  | [], _ => []
  | a :: rest, r =>
    if a.url = r.url then { r with id := a.id } :: rest
    else a :: replaceFirst rest r

/-- Upsert one row: update on `url` conflict, else insert with a fresh id. -/
def upsertOne (st : Store) (r : DbRow) : Store :=
  if st.rows.any (fun row => decide (row.url = r.url)) then
    { st with rows := replaceFirst st.rows r }
  else
    { rows := st.rows ++ [{ r with id := "L" ++ toString st.nextId }],
      nextId := st.nextId + 1 }

/-- Find the stored row at a `url`. -/
def findRowByUrl (st : Store) (url : String) : Option DbRow :=
  st.rows.find? (fun row => decide (row.url = url))

/-- Model of `upsertListings`: empty input returns immediately without a storage
call; otherwise the null-link candidates are filtered out, the remaining
rows are upserted on the `url` key (`dbErr` is the storage error of the
upsert request, when any), and the affected `(id, url)` references are
returned. -/
def upsertListings (dbErr : Option String) (now : String) (st : Store)
    (listings : List ScrapedListing) : Except String (Store × List StoredListing) :=
  if listings.isEmpty then Except.ok (st, [])
  else
    let rows := (listings.filter linkTruthy).map (toRow now)
    match dbErr with
    | some e => Except.error ("Failed to upsert listings: " ++ e)
    | none =>
      let st2 := rows.foldl upsertOne st
      let refs := rows.filterMap
        (fun r => (findRowByUrl st2 r.url).map (fun s => StoredListing.mk s.id s.url))
      Except.ok (st2, refs)

/-- A row of the duplicate-existence query selecting external_id and source. -/
structure ExRow where
  external_id : String
  source : String
deriving DecidableEq, Repr

/-- Result of `deduplicateListings`. -/
structure DedupeResult where
  unique : List ScrapedListing
  duplicatesSkipped : Nat
deriving DecidableEq, Repr

/-- Model of `deduplicateListings`: empty input and identity-less input return all
candidates untouched before the existence query is made; a failed query
degrades to all-unique with a warning; otherwise candidates whose
`source:external_id` key already exists are dropped (identity-less
candidates always pass). -/
def deduplicateListings (existRes : Except String (List ExRow))
    (listings : List ScrapedListing) : DedupeResult :=
  if listings.isEmpty then ⟨listings, 0⟩
  else
    let externalIds := (listings.map (fun l => l.external_id)).filter
      (fun i => decide (i ≠ ""))
    if externalIds.isEmpty then ⟨listings, 0⟩
    else
      match existRes with
      | Except.error _ => ⟨listings, 0⟩
      | Except.ok existing =>
        let existingSet := existing.map (fun row => row.source ++ ":" ++ row.external_id)
        let unique := listings.filter
          (fun l => decide (l.external_id = "") ||
            !(existingSet.contains (l.source ++ ":" ++ l.external_id)))
        ⟨unique, listings.length - unique.length⟩

/-- One ingestion call: dedupe against the existence query, then upsert the
unique candidates; on upsert failure no rows are stored. -/
def ingestStore (existRes : Except String (List ExRow)) (dbErr : Option String)
    (now : String) (st : Store) (listings : List ScrapedListing) : Store :=
  match upsertListings dbErr now st (deduplicateListings existRes listings).unique with
  | Except.ok p => p.1
  | Except.error _ => st

/-- Number of stored rows carrying a given `(source, external_id)` identity. -/
def identityCount (st : Store) (src xid : String) : Nat :=
  (st.rows.filter (fun r => decide (r.source = src) && decide (r.external_id = some xid))).length

/-! ## Pipeline orchestrator (pipeline.ts `runPipeline`) -/

/-- The active rubric. -/
structure GradingCriteria where
  version : String
  criteria_prompt : String
deriving DecidableEq, Repr

/-- A scraper result: normalized items plus the query URL. -/
structure ScrapeResult where
  items : List ScrapedListing
  url : String
deriving DecidableEq, Repr

/-- A sparse `agent_runs` update record as passed to `updateRun`. -/
structure RunUpdate where
  status : Option String := none
  finished_at : Option String := none
  listings_scraped : Option Nat := none
  listings_graded : Option Nat := none
  listings_failed : Option Nat := none
  average_score : Option (Option Int) := none
  error_message : Option String := none
deriving DecidableEq, Repr

instance {α β : Type} [DecidableEq α] [DecidableEq β] : DecidableEq (Except α β) :=
  fun x y =>
    match x, y with
    | Except.ok a, Except.ok b =>
      decidable_of_iff (a = b) ⟨congrArg Except.ok, Except.ok.inj⟩
    | Except.error a, Except.error b =>
      decidable_of_iff (a = b) ⟨congrArg Except.error, Except.error.inj⟩
    | Except.ok _, Except.error _ => isFalse (fun h => Except.noConfusion h)
    | Except.error _, Except.ok _ => isFalse (fun h => Except.noConfusion h)

/-- Oracles for the external calls of one pipeline run.  `updateRunRes`
gives the persistence outcome of each attempted run update; `upsertErr`
is the storage error of the listing upsert, when any; `now` stands for
the wall-clock timestamp. -/
structure PipelineEnv where
  criteria : Except String GradingCriteria
  createRunRes : Except String String
  ebay : Except String ScrapeResult
  craigslistEnabled : Bool
  craigslist : Except String ScrapeResult
  upsertErr : Option String
  store : Store
  updateRunRes : RunUpdate → Except String Unit
  ungraded : Except String (List Listing)
  dryRun : Bool
  now : String

/-- Observable outcome of a run: the value returned or error re-raised to
the caller, the applied run updates in order, the emitted events, and the
error-console entries of the failure path. -/
structure PipelineResult where
  outcome : Except String String
  updates : List RunUpdate
  events : List Ev
  console : List String
deriving DecidableEq, Repr

/-- The hardcoded grading batch size (config.ts). -/
def GRADING_BATCH_SIZE : Nat := 10

/-- The hardcoded grading concurrency (config.ts). -/
def GRADING_CONCURRENCY : Nat := 3

/-- The failure-marking update of the catch block. -/
def mkFailUpdate (now e : String) : RunUpdate :=
  { status := some "failed", finished_at := some now, error_message := some e }

/-- The catch block of `runPipeline`: log the failure, best-effort mark the
run failed and emit `run_failed`; if the marking itself fails, log that
error to the console too; in both cases re-raise the original error. -/
def failPath (env : PipelineEnv) (e : String) (updates : List RunUpdate)
    (events : List Ev) : PipelineResult :=
  let con0 := ["Run failed: " ++ e]
  match env.updateRunRes (mkFailUpdate env.now e) with
  | Except.ok _ =>
    ⟨Except.error e, updates ++ [mkFailUpdate env.now e], events ++ [Ev.runFailed e], con0⟩
  | Except.error e2 =>
    ⟨Except.error e, updates, events, con0 ++ ["Failed to log run failure: " ++ e2]⟩

/-- The optional Craigslist scrape step with its events. -/
def clStep (env : PipelineEnv) : Except (String × List Ev) (List ScrapedListing × List Ev) :=
  if env.craigslistEnabled then
    match env.craigslist with
    | Except.error e => Except.error (e, [Ev.scrapeStarted "craigslist"])
    | Except.ok r =>
      Except.ok (r.items, [Ev.scrapeStarted "craigslist",
        Ev.scrapeCompleted "craigslist" r.items.length])
  else Except.ok ([], [])

/-- Steps 6 to 9 of `runPipeline`: when there are zero ungraded listings
the run short-circuits to `completed` with zero counters and an absent
average and grading is not invoked; otherwise the grading engine runs and
the run is finalized with its statistics. -/
def pipelineFinish (env : PipelineEnv) (g : GradeEnv) (runId : String)
    (scrapedCount : Nat) (ungraded : List Listing) (updates : List RunUpdate)
    (events : List Ev) : PipelineResult :=
  if ungraded.isEmpty then
    let upd : RunUpdate :=
      { status := some "completed", finished_at := some env.now,
        listings_graded := some 0, listings_failed := some 0, average_score := some none }
    match env.updateRunRes upd with
    | Except.error e => failPath env e updates events
    | Except.ok _ =>
      ⟨Except.ok runId, updates ++ [upd],
        events ++ [Ev.runCompleted scrapedCount 0 0 none], []⟩
  else
    let res := gradeInBatches g env.dryRun GRADING_BATCH_SIZE GRADING_CONCURRENCY ungraded
    let upd : RunUpdate :=
      { status := some "completed", finished_at := some env.now,
        listings_graded := some res.1.graded, listings_failed := some res.1.failed,
        average_score := some (some res.1.averageScore) }
    match env.updateRunRes upd with
    | Except.error e => failPath env e updates (events ++ res.2)
    | Except.ok _ =>
      ⟨Except.ok runId, updates ++ [upd],
        events ++ res.2 ++
          [Ev.runCompleted scrapedCount res.1.graded res.1.failed (some res.1.averageScore)], []⟩

/-- The body of the `try` block of `runPipeline`: scrape both sources,
upsert, record the scraped count, select ungraded listings, then finish;
every failure of an external step unwinds to the catch block. -/
def pipelineBody (env : PipelineEnv) (g : GradeEnv) (runId : String) : PipelineResult :=
  let ev0 := [Ev.scrapeStarted "ebay"]
  match env.ebay with
  | Except.error e => failPath env e [] ev0
  | Except.ok ebayRes =>
    let ev1 := ev0 ++ [Ev.scrapeCompleted "ebay" ebayRes.items.length]
    match clStep env with
    | Except.error p => failPath env p.1 [] (ev1 ++ p.2)
    | Except.ok p =>
      let allListings := ebayRes.items ++ p.1
      let ev2 := ev1 ++ p.2
      match upsertListings env.upsertErr env.now env.store allListings with
      | Except.error e => failPath env e [] ev2
      | Except.ok up =>
        let ev3 := ev2 ++ [Ev.listingsStored up.2.length]
        let updScraped : RunUpdate := { listings_scraped := some allListings.length }
        match env.updateRunRes updScraped with
        | Except.error e => failPath env e [] ev3
        | Except.ok _ =>
          match env.ungraded with
          | Except.error e => failPath env e [updScraped] ev3
          | Except.ok ungraded =>
            pipelineFinish env g runId allListings.length ungraded [updScraped] ev3

/-- Model of `runPipeline`: criteria load and run creation precede the `try` block
(their failures are raised directly, with no run to mark); the body then
runs under the catch block modelled by `failPath`. -/
def runPipeline (env : PipelineEnv) (g : GradeEnv) : PipelineResult :=
  match env.criteria with
  | Except.error e => ⟨Except.error e, [], [], []⟩
  | Except.ok _ =>
    match env.createRunRes with
    | Except.error e => ⟨Except.error e, [], [], []⟩
    | Except.ok runId => pipelineBody env g runId

end Allstar

namespace Allstar

/-! ## Engine fold lemmas -/

/-- Is a settled outcome fulfilled? -/
def exOk (r : Except String GradeResult) : Bool :=
  match r with
  | Except.ok _ => true
  | Except.error _ => false

/-- Score contributed to the running total by a settled outcome. -/
def exScore (r : Except String GradeResult) : ℚ :=
  match r with
  | Except.ok res => res.score
  | Except.error _ => 0

/-- Did the item settle fulfilled? -/
def gradeOk (g : GradeEnv) (d : Bool) (l : Listing) : Bool := exOk (itemResult g d l)

/-- The score of a successfully graded item. -/
def okScore (g : GradeEnv) (d : Bool) (l : Listing) : Option ℚ :=
  match itemResult g d l with
  | Except.ok r => some r.score
  | Except.error _ => none

lemma countP_not_add (p : α → Bool) (l : List α) :
    l.countP p + l.countP (fun a => !p a) = l.length := by
  induction l with
  | nil => simp
  | cons a l ih => cases hpa : p a <;> simp [List.countP_cons, hpa] <;> omega

lemma settleOne_graded (acc : Accum) (r : Except String GradeResult) :
    (settleOne acc r).graded = acc.graded + (if exOk r then 1 else 0) := by
  cases r <;> simp [settleOne, exOk]

lemma settleOne_failed (acc : Accum) (r : Except String GradeResult) :
    (settleOne acc r).failed = acc.failed + (if exOk r then 0 else 1) := by
  cases r <;> simp [settleOne, exOk]

lemma settleOne_total (acc : Accum) (r : Except String GradeResult) :
    (settleOne acc r).totalScore = acc.totalScore + exScore r := by
  cases r <;> simp [settleOne, exScore]

lemma settleOne_evs_mono (acc : Accum) (r : Except String GradeResult)
    (e : Ev) (h : e ∈ acc.evs) : e ∈ (settleOne acc r).evs := by
  cases r with
  | ok res => simpa [settleOne] using h
  | error e2 =>
    simp only [settleOne]
    exact List.mem_append_left _ h

lemma foldl_settle_graded (rs : List (Except String GradeResult)) :
    ∀ acc : Accum, (rs.foldl settleOne acc).graded = acc.graded + rs.countP exOk := by
  induction rs with
  | nil => intro acc; simp
  | cons r rs ih =>
    intro acc
    simp only [List.foldl_cons, List.countP_cons, ih, settleOne_graded]
    cases hr : exOk r <;> simp <;> omega

lemma foldl_settle_failed (rs : List (Except String GradeResult)) :
    ∀ acc : Accum, (rs.foldl settleOne acc).failed =
      acc.failed + rs.countP (fun r => !exOk r) := by
  induction rs with
  | nil => intro acc; simp
  | cons r rs ih =>
    intro acc
    simp only [List.foldl_cons, List.countP_cons, ih, settleOne_failed]
    cases hr : exOk r <;> simp <;> omega

lemma foldl_settle_total (rs : List (Except String GradeResult)) :
    ∀ acc : Accum, (rs.foldl settleOne acc).totalScore =
      acc.totalScore + (rs.map exScore).sum := by
  induction rs with
  | nil => intro acc; simp
  | cons r rs ih =>
    intro acc
    simp only [List.foldl_cons, ih, settleOne_total, List.map_cons, List.sum_cons]
    ring

lemma foldl_settle_evs (rs : List (Except String GradeResult)) :
    ∀ acc : Accum, ∀ e ∈ acc.evs, e ∈ (rs.foldl settleOne acc).evs := by
  induction rs with
  | nil => intro acc e h; simpa using h
  | cons r rs ih =>
    intro acc e h
    exact ih (settleOne acc r) e (settleOne_evs_mono acc r e h)

lemma map_fst_itemRun (g : GradeEnv) (d : Bool) (chunk : List Listing) :
    ((chunk.map (itemRun g d)).map Prod.fst) = chunk.map (itemResult g d) := by
  simp [List.map_map, itemResult, Function.comp]

lemma processChunk_graded (g : GradeEnv) (d : Bool) (acc : Accum) (chunk : List Listing) :
    (processChunk g d acc chunk).graded = acc.graded + chunk.countP (gradeOk g d) := by
  simp only [processChunk]
  rw [map_fst_itemRun, foldl_settle_graded]
  simp only [List.countP_map]
  rfl

lemma processChunk_failed (g : GradeEnv) (d : Bool) (acc : Accum) (chunk : List Listing) :
    (processChunk g d acc chunk).failed =
      acc.failed + chunk.countP (fun l => !gradeOk g d l) := by
  simp only [processChunk]
  rw [map_fst_itemRun, foldl_settle_failed]
  simp only [List.countP_map]
  rfl

lemma processChunk_total (g : GradeEnv) (d : Bool) (acc : Accum) (chunk : List Listing) :
    (processChunk g d acc chunk).totalScore =
      acc.totalScore + (chunk.map (fun l => exScore (itemResult g d l))).sum := by
  simp only [processChunk]
  rw [map_fst_itemRun, foldl_settle_total]
  simp only [List.map_map]
  rfl

lemma processChunk_evs_mono (g : GradeEnv) (d : Bool) (acc : Accum) (chunk : List Listing)
    (e : Ev) (h : e ∈ acc.evs) : e ∈ (processChunk g d acc chunk).evs := by
  simp only [processChunk]
  apply foldl_settle_evs
  exact List.mem_append_left _ h

lemma itemRun_started (g : GradeEnv) (d : Bool) (l : Listing) :
    Ev.gradeStarted l ∈ (itemRun g d l).2 := by
  rcases h1 : gradeListing d (g.resp l) with e | r
  · simp [itemRun, h1]
  · rcases h2 : g.insertRes l with e2 | u <;> simp [itemRun, h1, h2]

lemma processChunk_started (g : GradeEnv) (d : Bool) (acc : Accum) (chunk : List Listing)
    (l : Listing) (hl : l ∈ chunk) :
    Ev.gradeStarted l ∈ (processChunk g d acc chunk).evs := by
  simp only [processChunk]
  apply foldl_settle_evs
  apply List.mem_append_right
  rw [List.mem_flatten]
  exact ⟨(itemRun g d l).2, List.mem_map_of_mem Prod.snd (List.mem_map_of_mem _ hl),
    itemRun_started g d l⟩

end Allstar

namespace Allstar

lemma chunksGo_flatten (b : Nat) (hb : 1 ≤ b) :
    ∀ fuel l, l.length ≤ fuel → (chunksGo b fuel l).flatten = l := by
  intro fuel
  induction fuel with
  | zero =>
    intro l h
    have : l = [] := List.eq_nil_of_length_eq_zero (Nat.le_zero.mp h)
    subst this
    simp [chunksGo]
  | succ n ih =>
    intro l h
    cases l with
    | nil => simp [chunksGo]
    | cons x xs =>
      simp only [chunksGo, List.flatten_cons]
      rw [ih ((x :: xs).drop b) (by simp at h ⊢; omega)]
      exact List.take_append_drop b (x :: xs)

lemma chunks_flatten (b : Nat) (hb : 1 ≤ b) (l : List Listing) :
    (chunks b l).flatten = l :=
  chunksGo_flatten b hb l.length l le_rfl

lemma foldl_chunks_graded (g : GradeEnv) (d : Bool) (cs : List (List Listing)) :
    ∀ acc : Accum, (cs.foldl (processChunk g d) acc).graded =
      acc.graded + cs.flatten.countP (gradeOk g d) := by
  induction cs with
  | nil => intro acc; simp
  | cons c cs ih =>
    intro acc
    simp only [List.foldl_cons, List.flatten_cons, List.countP_append, ih,
      processChunk_graded]
    omega

lemma foldl_chunks_failed (g : GradeEnv) (d : Bool) (cs : List (List Listing)) :
    ∀ acc : Accum, (cs.foldl (processChunk g d) acc).failed =
      acc.failed + cs.flatten.countP (fun l => !gradeOk g d l) := by
  induction cs with
  | nil => intro acc; simp
  | cons c cs ih =>
    intro acc
    simp only [List.foldl_cons, List.flatten_cons, List.countP_append, ih,
      processChunk_failed]
    omega

lemma foldl_chunks_total (g : GradeEnv) (d : Bool) (cs : List (List Listing)) :
    ∀ acc : Accum, (cs.foldl (processChunk g d) acc).totalScore =
      acc.totalScore + (cs.flatten.map (fun l => exScore (itemResult g d l))).sum := by
  induction cs with
  | nil => intro acc; simp
  | cons c cs ih =>
    intro acc
    simp only [List.foldl_cons, List.flatten_cons, List.map_append, List.sum_append, ih,
      processChunk_total]
    ring

lemma foldl_chunks_evs_mono (g : GradeEnv) (d : Bool) (cs : List (List Listing)) :
    ∀ acc : Accum, ∀ e ∈ acc.evs, e ∈ (cs.foldl (processChunk g d) acc).evs := by
  induction cs with
  | nil => intro acc e h; simpa using h
  | cons c cs ih =>
    intro acc e h
    exact ih _ e (processChunk_evs_mono g d acc c e h)

lemma foldl_chunks_started (g : GradeEnv) (d : Bool) (cs : List (List Listing)) :
    ∀ acc : Accum, ∀ l ∈ cs.flatten, Ev.gradeStarted l ∈ (cs.foldl (processChunk g d) acc).evs := by
  induction cs with
  | nil => intro acc l h; simp at h
  | cons c cs ih =>
    intro acc l h
    rw [List.flatten_cons, List.mem_append] at h
    rcases h with h | h
    · exact foldl_chunks_evs_mono g d cs _ _ (processChunk_started g d acc c l h)
    · exact ih _ l h

lemma processBatch_graded (g : GradeEnv) (d : Bool) (c : Nat) (hc : 1 ≤ c)
    (acc : Accum) (batch : List Listing) :
    (processBatch g d c acc batch).graded = acc.graded + batch.countP (gradeOk g d) := by
  simp only [processBatch, foldl_chunks_graded, chunks_flatten c hc]

lemma processBatch_failed (g : GradeEnv) (d : Bool) (c : Nat) (hc : 1 ≤ c)
    (acc : Accum) (batch : List Listing) :
    (processBatch g d c acc batch).failed =
      acc.failed + batch.countP (fun l => !gradeOk g d l) := by
  simp only [processBatch, foldl_chunks_failed, chunks_flatten c hc]

lemma processBatch_total (g : GradeEnv) (d : Bool) (c : Nat) (hc : 1 ≤ c)
    (acc : Accum) (batch : List Listing) :
    (processBatch g d c acc batch).totalScore =
      acc.totalScore + (batch.map (fun l => exScore (itemResult g d l))).sum := by
  simp only [processBatch, foldl_chunks_total, chunks_flatten c hc]

lemma processBatch_evs_mono (g : GradeEnv) (d : Bool) (c : Nat)
    (acc : Accum) (batch : List Listing) (e : Ev) (h : e ∈ acc.evs) :
    e ∈ (processBatch g d c acc batch).evs :=
  foldl_chunks_evs_mono g d _ acc e h

lemma processBatch_started (g : GradeEnv) (d : Bool) (c : Nat) (hc : 1 ≤ c)
    (acc : Accum) (batch : List Listing) (l : Listing) (hl : l ∈ batch) :
    Ev.gradeStarted l ∈ (processBatch g d c acc batch).evs := by
  apply foldl_chunks_started
  rw [chunks_flatten c hc]
  exact hl

lemma foldl_batches_graded (g : GradeEnv) (d : Bool) (c : Nat) (hc : 1 ≤ c)
    (bs : List (List Listing)) :
    ∀ acc : Accum, (bs.foldl (processBatch g d c) acc).graded =
      acc.graded + bs.flatten.countP (gradeOk g d) := by
  induction bs with
  | nil => intro acc; simp
  | cons b bs ih =>
    intro acc
    simp only [List.foldl_cons, List.flatten_cons, List.countP_append, ih,
      processBatch_graded g d c hc]
    omega

lemma foldl_batches_failed (g : GradeEnv) (d : Bool) (c : Nat) (hc : 1 ≤ c)
    (bs : List (List Listing)) :
    ∀ acc : Accum, (bs.foldl (processBatch g d c) acc).failed =
      acc.failed + bs.flatten.countP (fun l => !gradeOk g d l) := by
  induction bs with
  | nil => intro acc; simp
  | cons b bs ih =>
    intro acc
    simp only [List.foldl_cons, List.flatten_cons, List.countP_append, ih,
      processBatch_failed g d c hc]
    omega

lemma foldl_batches_total (g : GradeEnv) (d : Bool) (c : Nat) (hc : 1 ≤ c)
    (bs : List (List Listing)) :
    ∀ acc : Accum, (bs.foldl (processBatch g d c) acc).totalScore =
      acc.totalScore + (bs.flatten.map (fun l => exScore (itemResult g d l))).sum := by
  induction bs with
  | nil => intro acc; simp
  | cons b bs ih =>
    intro acc
    simp only [List.foldl_cons, List.flatten_cons, List.map_append, List.sum_append, ih,
      processBatch_total g d c hc]
    ring

lemma foldl_batches_evs_mono (g : GradeEnv) (d : Bool) (c : Nat)
    (bs : List (List Listing)) :
    ∀ acc : Accum, ∀ e ∈ acc.evs, e ∈ (bs.foldl (processBatch g d c) acc).evs := by
  induction bs with
  | nil => intro acc e h; simpa using h
  | cons b bs ih =>
    intro acc e h
    exact ih _ e (processBatch_evs_mono g d c acc b e h)

lemma foldl_batches_started (g : GradeEnv) (d : Bool) (c : Nat) (hc : 1 ≤ c)
    (bs : List (List Listing)) :
    ∀ acc : Accum, ∀ l ∈ bs.flatten,
      Ev.gradeStarted l ∈ (bs.foldl (processBatch g d c) acc).evs := by
  induction bs with
  | nil => intro acc l h; simp at h
  | cons b bs ih =>
    intro acc l h
    rw [List.flatten_cons, List.mem_append] at h
    rcases h with h | h
    · exact foldl_batches_evs_mono g d c bs _ _ (processBatch_started g d c hc acc b l h)
    · exact ih _ l h

end Allstar

namespace Allstar

lemma sum_exScore_filterMap (g : GradeEnv) (d : Bool) (ls : List Listing) :
    (ls.map (fun l => exScore (itemResult g d l))).sum = (ls.filterMap (okScore g d)).sum := by
  induction ls with
  | nil => simp
  | cons l ls ih =>
    rcases h : itemResult g d l with e | r
    · have h1 : exScore (itemResult g d l) = 0 := by rw [h]; rfl
      have h2 : okScore g d l = none := by unfold okScore; rw [h]
      simp only [List.map_cons, List.sum_cons, List.filterMap_cons, h1, h2, ih, zero_add]
    · have h1 : exScore (itemResult g d l) = r.score := by rw [h]; rfl
      have h2 : okScore g d l = some r.score := by unfold okScore; rw [h]
      simp only [List.map_cons, List.sum_cons, List.filterMap_cons, h1, h2, ih]

lemma gradeInBatches_graded (g : GradeEnv) (d : Bool) (b c : Nat) (ls : List Listing)
    (hb : 1 ≤ b) (hc : 1 ≤ c) :
    (gradeInBatches g d b c ls).1.graded = ls.countP (gradeOk g d) := by
  simp only [gradeInBatches, foldl_batches_graded g d c hc, chunks_flatten b hb ls]
  omega

lemma gradeInBatches_failed (g : GradeEnv) (d : Bool) (b c : Nat) (ls : List Listing)
    (hb : 1 ≤ b) (hc : 1 ≤ c) :
    (gradeInBatches g d b c ls).1.failed = ls.countP (fun l => !gradeOk g d l) := by
  simp only [gradeInBatches, foldl_batches_failed g d c hc, chunks_flatten b hb ls]
  omega

lemma gradeInBatches_avg (g : GradeEnv) (d : Bool) (b c : Nat) (ls : List Listing)
    (hb : 1 ≤ b) (hc : 1 ≤ c) :
    (gradeInBatches g d b c ls).1.averageScore =
      if 0 < ls.countP (gradeOk g d) then
        jsRound ((ls.filterMap (okScore g d)).sum / (ls.countP (gradeOk g d) : ℚ))
      else 0 := by
  simp only [gradeInBatches, foldl_batches_graded g d c hc, foldl_batches_total g d c hc,
    chunks_flatten b hb ls, sum_exScore_filterMap]
  simp [Nat.pos_iff_ne_zero]

lemma gradeInBatches_started (g : GradeEnv) (d : Bool) (b c : Nat) (ls : List Listing)
    (hb : 1 ≤ b) (hc : 1 ≤ c) (l : Listing) (hl : l ∈ ls) :
    Ev.gradeStarted l ∈ (gradeInBatches g d b c ls).2 := by
  simp only [gradeInBatches]
  apply foldl_batches_started g d c hc
  rw [chunks_flatten b hb ls]
  exact hl

/-! ## Claim theorems for the grading engine -/

/-- C1: for every input list of listings and every `batchSize ≥ 1` and
`concurrency ≥ 1`, when `gradeInBatches` completes the returned stats
satisfy `graded + failed = length of the input`: every item is counted
exactly once, as a success or as a failure.  (The source engine has no
cancellation input, so every completed call is a call completed without
cancellation.) -/
theorem gradeInBatches_counts_every_item (g : GradeEnv) (d : Bool) (b c : Nat)
    (ls : List Listing) (hb : 1 ≤ b) (hc : 1 ≤ c) :
    (gradeInBatches g d b c ls).1.graded + (gradeInBatches g d b c ls).1.failed = ls.length := by
  rw [gradeInBatches_graded g d b c ls hb hc, gradeInBatches_failed g d b c ls hb hc]
  exact countP_not_add _ ls

/-- A fixture listing. -/
def sampleListing (i : String) : Listing :=
  { id := i, title := "t", price := none, price_cents := none, link := none,
    image := none, source := "ebay", external_id := "x", condition := none,
    listing_date := none, location := none, seller_name := none, description := none }

/-- A grading environment in which every external call succeeds. -/
def gOkEnv : GradeEnv :=
  { resp := fun _ => Except.ok "ignored", insertRes := fun _ => Except.ok () }

/-- Witness for C1 at a concrete three-listing dry run. -/
theorem gradeInBatches_counts_every_item_witness :
    (gradeInBatches gOkEnv true 2 1 [sampleListing "a", sampleListing "b",
      sampleListing "c"]).1.graded +
    (gradeInBatches gOkEnv true 2 1 [sampleListing "a", sampleListing "b",
      sampleListing "c"]).1.failed = 3 :=
  gradeInBatches_counts_every_item gOkEnv true 2 1 _ (by decide) (by decide)

/-- C2: every per-item failure (grader call failure, parse failure, or a
validation failure such as a missing or non-numeric `score` or a
non-string `grade`, all of which make `itemResult` an `Except.error`) is
caught at the item boundary and counted in `failed`; `gradeInBatches`
never throws (it is a total function into statistics), and every listing
of the run is dispatched (its `grade_started` event is in the trace)
regardless of any other item failing. -/
theorem gradeEngine_isolates_failures (g : GradeEnv) (d : Bool) (b c : Nat)
    (ls : List Listing) (hb : 1 ≤ b) (hc : 1 ≤ c) :
    (gradeInBatches g d b c ls).1.failed = ls.countP (fun l => !gradeOk g d l) ∧
    (gradeInBatches g d b c ls).1.graded = ls.countP (gradeOk g d) ∧
    (gradeInBatches g d b c ls).1.graded + (gradeInBatches g d b c ls).1.failed = ls.length ∧
    ∀ l ∈ ls, Ev.gradeStarted l ∈ (gradeInBatches g d b c ls).2 := by
  refine ⟨gradeInBatches_failed g d b c ls hb hc, gradeInBatches_graded g d b c ls hb hc,
    ?_, fun l hl => gradeInBatches_started g d b c ls hb hc l hl⟩
  rw [gradeInBatches_graded g d b c ls hb hc, gradeInBatches_failed g d b c ls hb hc]
  exact countP_not_add _ ls

/-- A grading environment whose model response for the listing with id
`bad` is a JSON object missing `score`, and a well-formed grading response
for every other listing; persistence always succeeds. -/
def badRespEnv : GradeEnv :=
  { resp := fun l =>
      if l.id = "bad" then Except.ok "\x7b\"grade\": \"A\", \"rationale\": \"r\"\x7d"
      else Except.ok "\x7b\"score\": 80, \"grade\": \"A\", \"rationale\": \"ok\"\x7d",
    insertRes := fun _ => Except.ok () }

/-- Witness for C2: with a response missing `score` for one of two
listings, the run completes with `failed = 1`, `graded = 1`, both items
counted, and the second item still dispatched. -/
theorem gradeEngine_isolates_failures_witness :
    (gradeInBatches badRespEnv false 1 1 [sampleListing "bad", sampleListing "g"]).1.failed = 1 ∧
    (gradeInBatches badRespEnv false 1 1 [sampleListing "bad", sampleListing "g"]).1.graded = 1 ∧
    (gradeInBatches badRespEnv false 1 1 [sampleListing "bad", sampleListing "g"]).1.graded +
      (gradeInBatches badRespEnv false 1 1 [sampleListing "bad", sampleListing "g"]).1.failed = 2 ∧
    Ev.gradeStarted (sampleListing "g") ∈
      (gradeInBatches badRespEnv false 1 1 [sampleListing "bad", sampleListing "g"]).2 := by
  have h := gradeEngine_isolates_failures badRespEnv false 1 1
    [sampleListing "bad", sampleListing "g"] (by decide) (by decide)
  exact ⟨h.1.trans (by decide), h.2.1.trans (by decide), h.2.2.1,
    h.2.2.2 (sampleListing "g") (by decide)⟩

end Allstar

namespace Allstar

/-- C4: the `averageScore` returned by `gradeInBatches` equals the
integer-rounded mean of the scores of the successfully graded items when
`graded > 0`, and equals exactly `0` when `graded = 0`.  It can never be
NaN or undefined: `averageScore` is a total integer-valued field and the
division is only taken under the `graded > 0` guard. -/
theorem gradeInBatches_average_spec (g : GradeEnv) (d : Bool) (b c : Nat)
    (ls : List Listing) (hb : 1 ≤ b) (hc : 1 ≤ c) :
    ((gradeInBatches g d b c ls).1.graded = 0 →
      (gradeInBatches g d b c ls).1.averageScore = 0) ∧
    (0 < (gradeInBatches g d b c ls).1.graded →
      (gradeInBatches g d b c ls).1.averageScore =
        jsRound ((ls.filterMap (okScore g d)).sum /
          ((gradeInBatches g d b c ls).1.graded : ℚ))) := by
  rw [gradeInBatches_avg g d b c ls hb hc, gradeInBatches_graded g d b c ls hb hc]
  constructor
  · intro h0
    simp [h0]
  · intro hpos
    rw [if_pos hpos]

/-- A grading environment returning score 80 for the listing with id `a`
and 81 otherwise. -/
def scoreEnv : GradeEnv :=
  { resp := fun l => Except.ok ("\x7b\"score\": 8" ++
      (if l.id = "a" then "0" else "1") ++ ", \"grade\": \"B\", \"rationale\": \"x\"\x7d"),
    insertRes := fun _ => Except.ok () }

unseal Rat.add Rat.mul Rat.sub Rat.inv in
/-- Witness for C4: scores 80 and 81 round half-up to an average of 81. -/
theorem gradeInBatches_average_spec_witness :
    0 < (gradeInBatches scoreEnv false 2 2 [sampleListing "a", sampleListing "b"]).1.graded ∧
    (gradeInBatches scoreEnv false 2 2 [sampleListing "a", sampleListing "b"]).1.averageScore
      = 81 := by
  have h := gradeInBatches_average_spec scoreEnv false 2 2
    [sampleListing "a", sampleListing "b"] (by decide) (by decide)
  have hg : 0 < (gradeInBatches scoreEnv false 2 2
      [sampleListing "a", sampleListing "b"]).1.graded := by decide
  exact ⟨hg, (h.2 hg).trans (by decide)⟩

unseal Rat.add Rat.mul Rat.sub Rat.inv in
/-- C3 (code bug): the source grading engine takes no cancellation signal
at all — `gradeInBatches` has no `cancelSignal` or `abortSignal` input,
and `runPipeline` of pipeline.ts accepts only `dryRun`, although
server.ts wires an `AbortController` through `triggerRun` whose `/stop`
abort is therefore never observed.  Concretely, in a two-listing run with
batch size 1, batch 2 is dispatched and counted unconditionally: the
returned statistics always cover all batches, so a cancellation before
batch 2 cannot leave batch 2 untouched as the claim requires. -/
theorem gradeInBatches_has_no_cancellation_check :
    (gradeInBatches gOkEnv true 1 1 [sampleListing "a", sampleListing "b"]).1
      = ⟨2, 0, 50⟩ ∧
    Ev.gradeStarted (sampleListing "b") ∈
      (gradeInBatches gOkEnv true 1 1 [sampleListing "a", sampleListing "b"]).2 :=
  ⟨by decide, by decide⟩

end Allstar

namespace Allstar

/-! ## Claim theorems for the pipeline orchestrator -/

/-- Is an event one emitted by the grading engine? -/
def isGradeEv (e : Ev) : Bool :=
  match e with
  | Ev.gradeStarted _ => true
  | Ev.gradeCompleted _ _ _ => true
  | Ev.gradeFailed _ => true
  | _ => false

lemma clStep_no_grade_events (env : PipelineEnv) (items : List ScrapedListing)
    (evs : List Ev) (h : clStep env = Except.ok (items, evs)) :
    ∀ e ∈ evs, isGradeEv e = false := by
  unfold clStep at h
  by_cases hen : env.craigslistEnabled
  · rw [if_pos hen] at h
    rcases hcl : env.craigslist with e2 | r
    · rw [hcl] at h; cases h
    · rw [hcl] at h
      injection h with h2
      injection h2 with h3 h4
      subst h4
      intro e he
      fin_cases he <;> rfl
  · rw [if_neg hen] at h
    injection h with h2
    injection h2 with h3 h4
    subst h4
    intro e he
    fin_cases he

/-- The `completed` finalization update of the zero-ungraded path. -/
def zeroDoneUpd (now : String) : RunUpdate :=
  { status := some "completed", finished_at := some now,
    listings_graded := some 0, listings_failed := some 0, average_score := some none }

/-- C5: whenever the pipeline finds zero ungraded listings after storage
(and the preceding steps succeeded), the run is finalized with status
`completed`, `listings_graded = 0`, `listings_failed = 0` and
`average_score` explicitly null, the pipeline returns the run id, no
grading event is ever emitted, and the run result is independent of the
grading environment entirely — the grading engine is never invoked. -/
theorem pipeline_zero_ungraded_short_circuit
    (env : PipelineEnv) (g : GradeEnv) (cr : GradingCriteria) (rid : String)
    (er : ScrapeResult) (clItems : List ScrapedListing) (clEvs : List Ev)
    (st2 : Store) (stored : List StoredListing)
    (hcrit : env.criteria = Except.ok cr)
    (hrun : env.createRunRes = Except.ok rid)
    (heb : env.ebay = Except.ok er)
    (hcl : clStep env = Except.ok (clItems, clEvs))
    (hup : upsertListings env.upsertErr env.now env.store (er.items ++ clItems) =
      Except.ok (st2, stored))
    (hu1 : env.updateRunRes { listings_scraped := some (er.items ++ clItems).length } =
      Except.ok ())
    (hung : env.ungraded = Except.ok [])
    (hu2 : env.updateRunRes (zeroDoneUpd env.now) = Except.ok ()) :
    (runPipeline env g).outcome = Except.ok rid ∧
    zeroDoneUpd env.now ∈ (runPipeline env g).updates ∧
    (∀ ev ∈ (runPipeline env g).events, isGradeEv ev = false) ∧
    (∀ g2 : GradeEnv, runPipeline env g2 = runPipeline env g) := by
  have hred : ∀ g2 : GradeEnv, runPipeline env g2 =
      ⟨Except.ok rid,
        [{ listings_scraped := some (er.items ++ clItems).length }, zeroDoneUpd env.now],
        [Ev.scrapeStarted "ebay", Ev.scrapeCompleted "ebay" er.items.length] ++ clEvs ++
          [Ev.listingsStored stored.length,
           Ev.runCompleted (er.items ++ clItems).length 0 0 none], []⟩ := by
    intro g2
    rw [zeroDoneUpd] at hu2
    simp only [runPipeline, hcrit, hrun, pipelineBody, heb, hcl, hup, hu1, hung,
      pipelineFinish, List.isEmpty_nil, if_true, hu2, zeroDoneUpd]
    simp
  refine ⟨?_, ?_, ?_, ?_⟩
  · rw [hred g]
  · rw [hred g]
    simp
  · rw [hred g]
    intro ev hev
    rw [List.mem_append, List.mem_append] at hev
    rcases hev with (h | h) | h
    · fin_cases h <;> rfl
    · exact clStep_no_grade_events env clItems clEvs hcl ev h
    · fin_cases h <;> rfl
  · intro g2
    rw [hred g, hred g2]

end Allstar

namespace Allstar

/-- A pipeline environment for the zero-ungraded run: scrapes succeed with
no items, persistence succeeds, no ungraded listings. -/
def env5 : PipelineEnv :=
  { criteria := Except.ok ⟨"v1", "rubric"⟩
    createRunRes := Except.ok "run1"
    ebay := Except.ok ⟨[], "url"⟩
    craigslistEnabled := false
    craigslist := Except.ok ⟨[], "clurl"⟩
    upsertErr := none
    store := ⟨[], 0⟩
    updateRunRes := fun _ => Except.ok ()
    ungraded := Except.ok []
    dryRun := false
    now := "T0" }

/-- Witness for C5 at a concrete zero-ungraded run. -/
theorem pipeline_zero_ungraded_short_circuit_witness :
    (runPipeline env5 gOkEnv).outcome = Except.ok "run1" ∧
    zeroDoneUpd "T0" ∈ (runPipeline env5 gOkEnv).updates ∧
    (∀ ev ∈ (runPipeline env5 gOkEnv).events, isGradeEv ev = false) ∧
    (∀ g2 : GradeEnv, runPipeline env5 g2 = runPipeline env5 gOkEnv) :=
  pipeline_zero_ungraded_short_circuit env5 gOkEnv ⟨"v1", "rubric"⟩ "run1" ⟨[], "url"⟩
    [] [] ⟨[], 0⟩ [] rfl rfl rfl rfl rfl rfl rfl rfl

/-- C7: when a fatal error (here a scrape failure with message `e`) occurs
during a run, `runPipeline` marks the run failed with the (non-empty)
error message and a `finished_at` timestamp, emits a `run_failed` event,
and re-raises the original error to its caller; if the failure-marking
update itself fails, the original error is still re-raised and the
marking error is surfaced on the error console rather than silently
dropped (though no `run_failed` event can be written then). -/
theorem pipeline_fatal_error_marks_failed
    (env : PipelineEnv) (g : GradeEnv) (cr : GradingCriteria) (rid : String) (e : String)
    (hcrit : env.criteria = Except.ok cr)
    (hrun : env.createRunRes = Except.ok rid)
    (heb : env.ebay = Except.error e)
    (hne : e ≠ "") :
    (env.updateRunRes (mkFailUpdate env.now e) = Except.ok () →
      runPipeline env g = ⟨Except.error e, [mkFailUpdate env.now e],
        [Ev.scrapeStarted "ebay", Ev.runFailed e], ["Run failed: " ++ e]⟩ ∧
      (mkFailUpdate env.now e).status = some "failed" ∧
      (mkFailUpdate env.now e).error_message = some e ∧
      (mkFailUpdate env.now e).error_message ≠ some "" ∧
      (mkFailUpdate env.now e).finished_at = some env.now) ∧
    (∀ e2, env.updateRunRes (mkFailUpdate env.now e) = Except.error e2 →
      runPipeline env g = ⟨Except.error e, [], [Ev.scrapeStarted "ebay"],
        ["Run failed: " ++ e, "Failed to log run failure: " ++ e2]⟩) := by
  constructor
  · intro hmark
    refine ⟨?_, rfl, rfl, ?_, rfl⟩
    · simp only [runPipeline, hcrit, hrun, pipelineBody, heb, failPath, hmark]
      simp
    · simp [mkFailUpdate, hne]
  · intro e2 hmark
    simp only [runPipeline, hcrit, hrun, pipelineBody, heb, failPath, hmark]
    simp

/-- A pipeline environment whose eBay scrape fails and whose run updates
succeed. -/
def env7 : PipelineEnv :=
  { criteria := Except.ok ⟨"v1", "rubric"⟩
    createRunRes := Except.ok "run1"
    ebay := Except.error "boom"
    craigslistEnabled := false
    craigslist := Except.ok ⟨[], "clurl"⟩
    upsertErr := none
    store := ⟨[], 0⟩
    updateRunRes := fun _ => Except.ok ()
    ungraded := Except.ok []
    dryRun := false
    now := "T0" }

/-- Witness for C7 at a concrete failing scrape. -/
theorem pipeline_fatal_error_marks_failed_witness :
    runPipeline env7 gOkEnv = ⟨Except.error "boom", [mkFailUpdate "T0" "boom"],
      [Ev.scrapeStarted "ebay", Ev.runFailed "boom"], ["Run failed: " ++ "boom"]⟩ := by
  have h := pipeline_fatal_error_marks_failed env7 gOkEnv ⟨"v1", "rubric"⟩ "run1" "boom"
    rfl rfl rfl (by decide)
  exact (h.1 rfl).1

end Allstar

namespace Allstar

/-! ## Claim theorems for dedupe and upsert -/

/-- C8: `deduplicateListings` passes through every candidate lacking an
external identity (the empty `external_id`), and when the
duplicate-existence query fails it returns all candidates as unique with
`duplicatesSkipped = 0` instead of failing, so ingestion proceeds. -/
theorem dedupe_passes_identityless_and_degrades
    (existRes : Except String (List ExRow)) (listings : List ScrapedListing) :
    (∀ l ∈ listings, l.external_id = "" →
      l ∈ (deduplicateListings existRes listings).unique) ∧
    (∀ e, existRes = Except.error e →
      deduplicateListings existRes listings = ⟨listings, 0⟩) := by
  constructor
  · intro l hl hid
    simp only [deduplicateListings]
    split
    · exact hl
    · split
      · exact hl
      · cases existRes with
        | error e => exact hl
        | ok rows =>
          simp only [List.mem_filter]
          exact ⟨hl, by simp [hid]⟩
  · intro e he
    subst he
    simp only [deduplicateListings]
    split
    · rfl
    · split
      · rfl
      · rfl

/-- A fixture scraped listing. -/
def scraped (xid : String) (lnk : Option String) : ScrapedListing :=
  { title := "t", price := none, price_cents := none, link := lnk, image := none,
    source := "ebay", external_id := xid, condition := none, listing_date := none,
    location := none, seller_name := none, description := none, raw_data := [] }

/-- Witness for C8: an identity-less candidate survives dedupe against a
store that knows the other candidate, and a failed existence query
degrades to all-unique. -/
theorem dedupe_passes_identityless_and_degrades_witness :
    scraped "" none ∈ (deduplicateListings (Except.ok [⟨"X", "ebay"⟩])
      [scraped "" none, scraped "X" (some "u")]).unique ∧
    deduplicateListings (Except.error "db down")
      [scraped "" none, scraped "X" (some "u")] =
      ⟨[scraped "" none, scraped "X" (some "u")], 0⟩ :=
  ⟨(dedupe_passes_identityless_and_degrades (Except.ok [⟨"X", "ebay"⟩])
      [scraped "" none, scraped "X" (some "u")]).1 (scraped "" none) (by decide) rfl,
   (dedupe_passes_identityless_and_degrades (Except.error "db down")
      [scraped "" none, scraped "X" (some "u")]).2 "db down" rfl⟩

end Allstar

namespace Allstar

lemma findRowByUrl_url (st : Store) (u : String) (s : DbRow)
    (h : findRowByUrl st u = some s) : s.url = u := by
  unfold findRowByUrl at h
  have h2 := List.find?_some h
  exact of_decide_eq_true h2

lemma linkTruthy_link (l : ScrapedListing) (h : linkTruthy l = true) :
    l.link = some (l.link.getD "") := by
  unfold linkTruthy at h
  cases hl : l.link with
  | none => rw [hl] at h; cases h
  | some s => simp [hl]

lemma mem_replaceFirst (rows : List DbRow) (r row : DbRow)
    (h : row ∈ replaceFirst rows r) : row ∈ rows ∨ row.url = r.url := by
  induction rows with
  | nil => simp [replaceFirst] at h
  | cons a rest ih =>
    unfold replaceFirst at h
    by_cases ha : a.url = r.url
    · rw [if_pos ha] at h
      rcases List.mem_cons.mp h with h2 | h2
      · right
        rw [h2]
      · left
        exact List.mem_cons_of_mem a h2
    · rw [if_neg ha] at h
      rcases List.mem_cons.mp h with h2 | h2
      · left
        rw [h2]
        exact List.mem_cons_self a rest
      · rcases ih h2 with h3 | h3
        · exact Or.inl (List.mem_cons_of_mem a h3)
        · exact Or.inr h3

lemma mem_upsertOne (st : Store) (r row : DbRow)
    (h : row ∈ (upsertOne st r).rows) : row ∈ st.rows ∨ row.url = r.url := by
  unfold upsertOne at h
  by_cases hany : st.rows.any (fun row => decide (row.url = r.url)) = true
  · rw [if_pos hany] at h
    exact mem_replaceFirst st.rows r row h
  · rw [if_neg hany] at h
    rcases List.mem_append.mp h with h2 | h2
    · exact Or.inl h2
    · right
      rcases List.mem_singleton.mp h2 with h3
      rw [h3]

lemma mem_foldl_upsert (rows : List DbRow) :
    ∀ st row, row ∈ (rows.foldl upsertOne st).rows →
      row ∈ st.rows ∨ ∃ r ∈ rows, row.url = r.url := by
  induction rows with
  | nil => intro st row h; exact Or.inl h
  | cons r rest ih =>
    intro st row h
    rcases ih (upsertOne st r) row h with h2 | h2
    · rcases mem_upsertOne st r row h2 with h3 | h3
      · exact Or.inl h3
      · exact Or.inr ⟨r, List.mem_cons_self r rest, h3⟩
    · rcases h2 with ⟨r2, hr2, hurl⟩
      exact Or.inr ⟨r2, List.mem_cons_of_mem r hr2, hurl⟩

/-- C10: `upsertListings` never persists a candidate whose link is null:
applied to the empty list it returns the untouched store and no
references before any storage call is made (even a failing storage is
not consulted), every returned stored reference carries the url of a
candidate with a non-null link, and every stored row is either a
pre-existing row or carries the url of a candidate with a non-null
link. -/
theorem upsert_filters_null_links (dbErr : Option String) (now : String)
    (st : Store) (listings : List ScrapedListing) :
    upsertListings dbErr now st [] = Except.ok (st, []) ∧
    (∀ st2 refs, upsertListings dbErr now st listings = Except.ok (st2, refs) →
      (∀ ref ∈ refs, ∃ l ∈ listings, l.link = some ref.url) ∧
      (∀ row ∈ st2.rows, row ∈ st.rows ∨ ∃ l ∈ listings, l.link = some row.url)) := by
  constructor
  · rfl
  · intro st2 refs h
    unfold upsertListings at h
    by_cases hemp : listings.isEmpty = true
    · rw [if_pos hemp] at h
      injection h with h2
      injection h2 with h3 h4
      subst h3
      subst h4
      constructor
      · intro ref href
        cases href
      · intro row hrow
        exact Or.inl hrow
    · rw [if_neg hemp] at h
      cases hdb : dbErr with
      | some e => rw [hdb] at h; cases h
      | none =>
        rw [hdb] at h
        injection h with h2
        injection h2 with h3 h4
        subst h3
        subst h4
        constructor
        · intro ref href
          rcases List.mem_filterMap.mp href with ⟨r, hr, hmap⟩
          rcases Option.map_eq_some.mp hmap with ⟨s, hfind, hmk⟩
          rcases List.mem_map.mp hr with ⟨l, hlmem, htorow⟩
          rcases List.mem_filter.mp hlmem with ⟨hlin, hltruthy⟩
          refine ⟨l, hlin, ?_⟩
          have hurl : s.url = r.url := findRowByUrl_url _ _ s hfind
          have hru : r.url = l.link.getD "" := by rw [← htorow]; rfl
          have hrefurl : ref.url = s.url := by rw [← hmk]
          rw [hrefurl, hurl, hru]
          exact linkTruthy_link l hltruthy
        · intro row hrow
          rcases mem_foldl_upsert _ st row hrow with h2 | h2
          · exact Or.inl h2
          · rcases h2 with ⟨r, hr, hurl⟩
            rcases List.mem_map.mp hr with ⟨l, hlmem, htorow⟩
            rcases List.mem_filter.mp hlmem with ⟨hlin, hltruthy⟩
            refine Or.inr ⟨l, hlin, ?_⟩
            have hru : r.url = l.link.getD "" := by rw [← htorow]; rfl
            rw [hurl, hru]
            exact linkTruthy_link l hltruthy

/-- Witness for C10: with a null-link candidate and a linked candidate,
the upsert returns a single reference carrying the linked url, and the
stored rows all carry that url. -/
theorem upsert_filters_null_links_witness :
    upsertListings none "T" ⟨[], 0⟩ [] = Except.ok (⟨[], 0⟩, []) ∧
    (∃ st2 refs,
      upsertListings none "T" ⟨[], 0⟩ [scraped "x" none, scraped "y" (some "A")] =
        Except.ok (st2, refs) ∧
      (∀ ref ∈ refs, ∃ l ∈ [scraped "x" none, scraped "y" (some "A")],
        l.link = some ref.url)) := by
  have h := upsert_filters_null_links none "T" ⟨[], 0⟩
    [scraped "x" none, scraped "y" (some "A")]
  exact ⟨h.1, _, _, rfl, (h.2 _ _ rfl).1⟩

end Allstar

namespace Allstar

/-- C9 counterexample: two listings with the identical identity
`(ebay, X)` but different links, submitted in the same ingestion call
against an empty store, produce two stored rows: the dedupe step only
checks identities already known to storage, and the upsert conflicts on
the `url` key alone, so the claim as stated is false. -/
theorem ingest_same_identity_not_deduped :
    ¬ (identityCount (ingestStore (Except.ok []) none "T" ⟨[], 0⟩
        [scraped "X" (some "https://a"), scraped "X" (some "https://b")]) "ebay" "X" ≤ 1) := by
  decide

/-- Row identity test used by `identityCount`. -/
def rowIdentB (s x : String) (r : DbRow) : Bool :=
  decide (r.source = s) && decide (r.external_id = some x)

/-- The value of `identityCount` on a bare row list. -/
def countIdentRows (s x : String) (rows : List DbRow) : Nat :=
  (rows.filter (fun r => decide (r.source = s) && decide (r.external_id = some x))).length

lemma identityCount_eq (st : Store) (s x : String) :
    identityCount st s x = countIdentRows s x st.rows := rfl

lemma countIdent_cons (s x : String) (a : DbRow) (rows : List DbRow) :
    countIdentRows s x (a :: rows) =
      (if rowIdentB s x a then 1 else 0) + countIdentRows s x rows := by
  simp only [countIdentRows, rowIdentB, List.filter_cons]
  split <;> simp <;> omega

lemma countIdent_append_one (s x : String) (rows : List DbRow) (a : DbRow) :
    countIdentRows s x (rows ++ [a]) =
      countIdentRows s x rows + (if rowIdentB s x a then 1 else 0) := by
  simp only [countIdentRows, rowIdentB, List.filter_append, List.length_append]
  simp only [List.filter_cons, List.filter_nil]
  split <;> simp

lemma countIdent_replaceFirst_of_zero (s x : String) (rows : List DbRow) (r : DbRow)
    (h : countIdentRows s x rows = 0) :
    countIdentRows s x (replaceFirst rows r) ≤ 1 := by
  induction rows with
  | nil => simp [replaceFirst, countIdentRows]
  | cons a rest ih =>
    rw [countIdent_cons] at h
    have ha : countIdentRows s x rest = 0 := by omega
    have ha2 : (if rowIdentB s x a then 1 else 0) = 0 := by omega
    unfold replaceFirst
    by_cases hu : a.url = r.url
    · rw [if_pos hu, countIdent_cons, ha]
      split <;> omega
    · rw [if_neg hu, countIdent_cons, ha2]
      have := ih ha
      omega

lemma identityCount_upsertOne_of_zero (st : Store) (r : DbRow) (s x : String)
    (h : identityCount st s x = 0) : identityCount (upsertOne st r) s x ≤ 1 := by
  rw [identityCount_eq] at h ⊢
  unfold upsertOne
  by_cases hany : st.rows.any (fun row => decide (row.url = r.url)) = true
  · rw [if_pos hany]
    exact countIdent_replaceFirst_of_zero s x st.rows r h
  · rw [if_neg hany]
    rw [countIdent_append_one, h]
    split <;> omega

lemma replaceFirst_cons (a : DbRow) (rest : List DbRow) (r : DbRow) :
    replaceFirst (a :: rest) r =
      if a.url = r.url then { r with id := a.id } :: rest
      else a :: replaceFirst rest r := rfl

lemma replaceFirst_replaceFirst (rows : List DbRow) (r1 r2 : DbRow)
    (hurl : r2.url = r1.url) :
    replaceFirst (replaceFirst rows r1) r2 = replaceFirst rows r2 := by
  induction rows with
  | nil => rfl
  | cons a rest ih =>
    rw [replaceFirst_cons]
    by_cases ha : a.url = r1.url
    · rw [if_pos ha, replaceFirst_cons, replaceFirst_cons]
      have h2 : ({ r1 with id := a.id } : DbRow).url = r2.url := by
        show r1.url = r2.url
        rw [hurl]
      have h3 : a.url = r2.url := by rw [hurl]; exact ha
      rw [if_pos h2, if_pos h3]
    · rw [if_neg ha, replaceFirst_cons, replaceFirst_cons]
      have h2 : ¬ (a.url = r2.url) := by rw [hurl]; exact ha
      rw [if_neg h2, if_neg h2, ih]

lemma replaceFirst_append_no_match (rows : List DbRow) (a r2 : DbRow)
    (h : ∀ row ∈ rows, ¬ (row.url = r2.url)) (ha : a.url = r2.url) :
    replaceFirst (rows ++ [a]) r2 = rows ++ [{ r2 with id := a.id }] := by
  induction rows with
  | nil =>
    simp only [List.nil_append]
    unfold replaceFirst
    rw [if_pos ha]
  | cons b rest ih =>
    simp only [List.cons_append]
    unfold replaceFirst
    rw [if_neg (h b (List.mem_cons_self b rest))]
    rw [ih (fun row hr => h row (List.mem_cons_of_mem b hr))]

lemma mem_url_replaceFirst (rows : List DbRow) (r1 : DbRow)
    (h : ∃ row ∈ rows, row.url = r1.url) :
    ∃ row ∈ replaceFirst rows r1, row.url = r1.url := by
  induction rows with
  | nil => simpa using h
  | cons a rest ih =>
    unfold replaceFirst
    by_cases ha : a.url = r1.url
    · rw [if_pos ha]
      exact ⟨{ r1 with id := a.id }, List.mem_cons_self _ _, rfl⟩
    · rw [if_neg ha]
      rcases h with ⟨row, hmem, hu⟩
      rcases List.mem_cons.mp hmem with h2 | h2
      · exact absurd (h2 ▸ hu) ha
      · rcases ih ⟨row, h2, hu⟩ with ⟨row2, hmem2, hu2⟩
        exact ⟨row2, List.mem_cons_of_mem a hmem2, hu2⟩

lemma upsertOne_upsertOne_same_url (st : Store) (r1 r2 : DbRow)
    (hurl : r2.url = r1.url) :
    upsertOne (upsertOne st r1) r2 = upsertOne st r2 := by
  by_cases hany : st.rows.any (fun row => decide (row.url = r1.url)) = true
  · have hany2 : st.rows.any (fun row => decide (row.url = r2.url)) = true := by
      rw [hurl]
      exact hany
    have h1 : upsertOne st r1 = { st with rows := replaceFirst st.rows r1 } := by
      unfold upsertOne
      rw [if_pos hany]
    rcases List.any_eq_true.mp hany with ⟨row, hmem, hp⟩
    have hmem2 : ∃ row ∈ replaceFirst st.rows r1, row.url = r1.url :=
      mem_url_replaceFirst st.rows r1 ⟨row, hmem, of_decide_eq_true hp⟩
    have hany3 : (replaceFirst st.rows r1).any (fun row => decide (row.url = r2.url)) = true := by
      rcases hmem2 with ⟨row2, hm2, hu2⟩
      exact List.any_eq_true.mpr ⟨row2, hm2, decide_eq_true (by rw [hurl]; exact hu2)⟩
    rw [h1]
    unfold upsertOne
    rw [if_pos hany3, if_pos hany2]
    simp only []
    rw [replaceFirst_replaceFirst st.rows r1 r2 hurl]
  · have hany2 : ¬ (st.rows.any (fun row => decide (row.url = r2.url)) = true) := by
      rw [hurl]
      exact hany
    have h1 : upsertOne st r1 =
        { rows := st.rows ++ [{ r1 with id := "L" ++ toString st.nextId }],
          nextId := st.nextId + 1 } := by
      unfold upsertOne
      rw [if_neg hany]
    have hnomem : ∀ row ∈ st.rows, ¬ (row.url = r2.url) := by
      intro row hr hc
      exact hany2 (List.any_eq_true.mpr ⟨row, hr, decide_eq_true hc⟩)
    have happ : ({ r1 with id := "L" ++ toString st.nextId } : DbRow).url = r2.url := by
      rw [hurl]
    have hany3 : (st.rows ++ [{ r1 with id := "L" ++ toString st.nextId }]).any
        (fun row => decide (row.url = r2.url)) = true :=
      List.any_eq_true.mpr ⟨_, List.mem_append_right _ (List.mem_singleton.mpr rfl), decide_eq_true happ⟩
    rw [h1]
    unfold upsertOne
    rw [if_pos hany3, if_neg hany2]
    simp only []
    rw [replaceFirst_append_no_match st.rows _ r2 hnomem happ]

end Allstar

namespace Allstar

lemma dedupe_pair_same_key (existRes : Except String (List ExRow))
    (l1 l2 : ScrapedListing) (hsrc : l2.source = l1.source)
    (hxid : l2.external_id = l1.external_id) :
    (deduplicateListings existRes [l1, l2]).unique = [l1, l2] ∨
    (deduplicateListings existRes [l1, l2]).unique = [] := by
  simp only [deduplicateListings]
  split
  · exact Or.inl rfl
  · split
    · exact Or.inl rfl
    · split
      · exact Or.inl rfl
      · simp only [List.filter_cons, List.filter_nil]
        rw [hsrc, hxid]
        split
        · rename_i hcond
          simp [hcond]
        · rename_i hcond
          simp [hcond]

lemma ingestStore_upsert_error (existRes : Except String (List ExRow)) (e now : String)
    (st : Store) (listings : List ScrapedListing) :
    ingestStore existRes (some e) now st listings = st := by
  unfold ingestStore upsertListings
  by_cases hq : (deduplicateListings existRes listings).unique.isEmpty = true
  · rw [if_pos hq]
  · rw [if_neg hq]

/-- C9 amended: two listings with identical `(source, external_id)` and
identical `link`, submitted in the same ingestion call against a store
holding no row of that identity, result in at most one stored row of
that identity after dedupe plus upsert (the second candidate lands on
the same `url` key and updates rather than inserts). -/
theorem ingest_same_identity_same_link_at_most_one
    (existRes : Except String (List ExRow)) (dbErr : Option String) (now : String)
    (st : Store) (l1 l2 : ScrapedListing)
    (hid : identityCount st l1.source l1.external_id = 0)
    (hsrc : l2.source = l1.source)
    (hxid : l2.external_id = l1.external_id)
    (hlink : l2.link = l1.link) :
    identityCount (ingestStore existRes dbErr now st [l1, l2])
      l1.source l1.external_id ≤ 1 := by
  cases dbErr with
  | some e =>
    rw [ingestStore_upsert_error]
    omega
  | none =>
    rcases dedupe_pair_same_key existRes l1 l2 hsrc hxid with hu | hu
    · have hne : ¬ (([l1, l2] : List ScrapedListing).isEmpty = true) := by simp
      have hred : ingestStore existRes none now st [l1, l2] =
          (([l1, l2].filter linkTruthy).map (toRow now)).foldl upsertOne st := by
        unfold ingestStore
        rw [hu]
        unfold upsertListings
        rw [if_neg hne]
      rw [hred]
      have hlt : linkTruthy l2 = linkTruthy l1 := by
        unfold linkTruthy
        rw [hlink]
      cases hv : linkTruthy l1 with
      | false =>
        simp only [List.filter_cons, List.filter_nil, hlt, hv, Bool.false_eq_true,
          if_false, List.map_nil, List.foldl_nil]
        omega
      | true =>
        simp only [List.filter_cons, List.filter_nil, hlt, hv, if_true,
          List.map_cons, List.map_nil, List.foldl_cons, List.foldl_nil]
        have hurl : (toRow now l2).url = (toRow now l1).url := by
          show l2.link.getD "" = l1.link.getD ""
          rw [hlink]
        rw [upsertOne_upsertOne_same_url st _ _ hurl]
        exact identityCount_upsertOne_of_zero st _ _ _ hid
    · have hred : ingestStore existRes none now st [l1, l2] = st := by
        unfold ingestStore
        rw [hu]
        rfl
      rw [hred]
      omega

/-- Witness for the amended C9: two identically-linked candidates with
the same identity produce at most one stored row. -/
theorem ingest_same_identity_same_link_at_most_one_witness :
    identityCount (ingestStore (Except.ok []) none "T" ⟨[], 0⟩
        [scraped "X" (some "https://a"), scraped "X" (some "https://a")])
      (scraped "X" (some "https://a")).source
      (scraped "X" (some "https://a")).external_id ≤ 1 :=
  ingest_same_identity_same_link_at_most_one (Except.ok []) none "T" ⟨[], 0⟩ _ _
    (by decide) rfl rfl rfl

end Allstar

namespace Allstar

/-! ## Claim theorems for fenced-response parsing -/

/-- The opening fence with the `json` language tag plus newline. -/
def fenceOpenJsonChars : List Char := [btk, btk, btk, 'j', 's', 'o', 'n', '\n']

/-- The opening fence without a language tag. -/
def fenceOpenPlainChars : List Char := [btk, btk, btk, '\n']

/-- The closing fence on its own line. -/
def fenceCloseChars : List Char := ['\n', btk, btk, btk]

/-- Wrap a text in a fenced code block with the `json` language tag. -/
def wrapJsonFence (t : String) : String :=
  String.mk (fenceOpenJsonChars ++ t.data ++ fenceCloseChars)

/-- Wrap a text in a fenced code block without a language tag. -/
def wrapPlainFence (t : String) : String :=
  String.mk (fenceOpenPlainChars ++ t.data ++ fenceCloseChars)

/-- The counterexample text: valid JSON whose `rationale` contains a fence
delimiter. -/
def c6t : String := "\x7b\"score\": 1, \"grade\": \"A\", \"rationale\": \"```\"\x7d"

/-- C6 counterexample: the raw counterexample text parses to a valid
grading verdict, but the same text wrapped in a `json`-tagged fenced
block does not parse at all — the fence regex stops its capture at the
delimiter inside the rationale string — so the response-parsing step of
`gradeListing` does not produce the same result for every JSON text
across the unwrapped and wrapped forms. -/
theorem fence_wrapping_changes_result :
    (parseGradeResponse (wrapJsonFence c6t)).toOption ≠
      (parseGradeResponse c6t).toOption := by
  intro hEq
  have h1 : (parseGradeResponse c6t).toOption.isSome = true := by decide
  have h2 : (parseGradeResponse (wrapJsonFence c6t)).toOption.isSome = false := by decide
  rw [hEq, h1] at h2
  exact Bool.noConfusion h2

lemma hasTB_tail (x : Char) (xs : List Char) (h : hasTB (x :: xs) = false) :
    hasTB xs = false := by
  match xs with
  | [] => rfl
  | [b] => rfl
  | b :: c :: rest =>
    unfold hasTB at h
    exact (Bool.or_eq_false_iff.mp h).2

lemma hasTB_append_right (xs ys : List Char) (h : hasTB (xs ++ ys) = false) :
    hasTB ys = false := by
  induction xs with
  | nil => exact h
  | cons a rest ih => exact ih (hasTB_tail a (rest ++ ys) h)

lemma isTriple_false_of_hasTB (l : List Char) (h : hasTB l = false) :
    isTriple l = false := by
  match l with
  | [] => rfl
  | [a] => rfl
  | [a, b] => rfl
  | a :: b :: c :: rest =>
    unfold hasTB at h
    exact (Bool.or_eq_false_iff.mp h).1

lemma hasTB_append_left (xs ys : List Char) (h : hasTB (xs ++ ys) = false) :
    hasTB xs = false := by
  induction xs with
  | nil => rfl
  | cons a rest ih =>
    match hrest : rest with
    | [] => rfl
    | [b] => rfl
    | b :: c :: more =>
      unfold hasTB
      rw [Bool.or_eq_false_iff]
      constructor
      · have h2 : isTriple ((a :: b :: c :: more) ++ ys) = false := by
          apply isTriple_false_of_hasTB
          exact h
        match ys with
        | [] => simpa using h2
        | y :: ys2 => simpa using h2
      · exact ih (hasTB_tail a ((b :: c :: more) ++ ys) h)

lemma fenceScan_none_of_hasTB (l : List Char) (h : hasTB l = false) :
    fenceScan l = none := by
  induction l with
  | nil => rfl
  | cons a rest ih =>
    unfold fenceScan
    rw [isTriple_false_of_hasTB (a :: rest) h]
    simp only [Bool.false_eq_true, if_false]
    exact ih (hasTB_tail a rest h)

lemma hasTB_dropWhile (p : Char → Bool) (l : List Char) (h : hasTB l = false) :
    hasTB (l.dropWhile p) = false := by
  induction l with
  | nil => rfl
  | cons a rest ih =>
    rw [List.dropWhile_cons]
    split
    · exact ih (hasTB_tail a rest h)
    · exact h

lemma dropWhile_suffix_exists (p : Char → Bool) (m : List Char) :
    ∃ m1, m = m1 ++ m.dropWhile p := by
  induction m with
  | nil => exact ⟨[], rfl⟩
  | cons a rest ih =>
    rw [List.dropWhile_cons]
    split
    · rcases ih with ⟨m1, hm1⟩
      exact ⟨a :: m1, by rw [List.cons_append, ← hm1]⟩
    · exact ⟨[], rfl⟩

lemma hasTB_trimRight (l : List Char) (h : hasTB l = false) :
    hasTB (trimRightWs l) = false := by
  rcases dropWhile_suffix_exists isJsWs l.reverse with ⟨m1, hm1⟩
  have h2 : l = (l.reverse.dropWhile isJsWs).reverse ++ m1.reverse := by
    have h3 := congrArg List.reverse hm1
    rw [List.reverse_reverse, List.reverse_append] at h3
    exact h3
  rw [trimRightWs]
  apply hasTB_append_left _ m1.reverse
  rw [← h2]
  exact h

lemma hasTB_jsTrim (l : List Char) (h : hasTB l = false) :
    hasTB (jsTrim l) = false := by
  unfold jsTrim trimLeftWs
  exact hasTB_trimRight _ (hasTB_dropWhile isJsWs l h)

end Allstar

namespace Allstar

lemma isJsWs_btk : isJsWs btk = false := by decide

lemma isJsWs_nl : isJsWs '\n' = true := by decide

lemma dropWhile_head_false (p : Char → Bool) (l : List Char) (x : Char) (xs : List Char)
    (h : l.dropWhile p = x :: xs) : p x = false := by
  induction l with
  | nil => cases h
  | cons a rest ih =>
    rw [List.dropWhile_cons] at h
    split at h
    · exact ih h
    · rename_i hpa
      injection h with h1 h2
      subst h1
      exact Bool.of_not_eq_true hpa

lemma trimRight_append_nonws (l : List Char) (c : Char) (hc : isJsWs c = false) :
    trimRightWs (l ++ [c]) = l ++ [c] := by
  unfold trimRightWs
  rw [List.reverse_append, List.reverse_singleton, List.singleton_append,
    List.dropWhile_cons, hc]
  simp

lemma trimRight_append_ws (l : List Char) (c : Char) (hc : isJsWs c = true) :
    trimRightWs (l ++ [c]) = trimRightWs l := by
  unfold trimRightWs
  rw [List.reverse_append, List.reverse_singleton, List.singleton_append,
    List.dropWhile_cons, hc]
  simp

lemma isTriple_window_false (a : Char) (l2 : List Char) (c : Char)
    (hc : ¬ (c = btk)) (h : hasTB (a :: l2) = false) (rest2 : List Char) :
    isTriple (a :: (l2 ++ c :: rest2)) = false := by
  match l2 with
  | [] =>
    cases rest2 with
    | nil => rfl
    | cons r rs =>
      unfold isTriple
      simp [hc]
  | [b] =>
    unfold isTriple
    simp [hc]
  | b :: c2 :: l3 =>
    have h2 : isTriple (a :: b :: c2 :: l3) = false := isTriple_false_of_hasTB _ h
    unfold isTriple at h2 ⊢
    simpa using h2

lemma findClose_boundary (l : List Char) (hl : hasTB l = false) (c : Char)
    (hc : ¬ (c = btk)) (rest : List Char) :
    findClose (l ++ c :: btk :: btk :: btk :: rest) = some (l ++ [c]) := by
  induction l with
  | nil =>
    rw [List.nil_append]
    unfold findClose
    have h1 : isTriple (c :: btk :: btk :: btk :: rest) = false := by
      unfold isTriple
      simp [hc]
    rw [h1]
    simp only [Bool.false_eq_true, if_false]
    unfold findClose
    rw [show isTriple (btk :: btk :: btk :: rest) = true by unfold isTriple; simp]
    simp
  | cons a l2 ih =>
    rw [List.cons_append]
    unfold findClose
    rw [isTriple_window_false a l2 c hc hl (btk :: btk :: btk :: rest)]
    simp only [Bool.false_eq_true, if_false]
    rw [ih (hasTB_tail a l2 hl)]
    simp

lemma dropWhileAppend (p : Char → Bool) (xs ys : List Char) :
    List.dropWhile p (xs ++ ys) =
      if (List.dropWhile p xs).isEmpty then List.dropWhile p ys
      else List.dropWhile p xs ++ ys := by
  induction xs with
  | nil => simp
  | cons a rest ih =>
    rw [List.cons_append, List.dropWhile_cons, List.dropWhile_cons]
    split
    · exact ih
    · simp

lemma fenceScan_open (mid : List Char) (cap : List Char)
    (h : tryFence mid = some cap) :
    fenceScan (btk :: btk :: btk :: mid) = some cap := by
  unfold fenceScan
  rw [show isTriple (btk :: btk :: btk :: mid) = true by unfold isTriple; simp]
  simp only [if_true, List.drop_succ_cons, List.drop_zero]
  rw [h]

lemma tryFence_json_tag (u : List Char) :
    tryFence ('j' :: 's' :: 'o' :: 'n' :: '\n' :: u) =
      findClose (u.dropWhile isJsWs) := by
  simp only [tryFence]
  rw [if_pos (show List.take 4 ('j' :: 's' :: 'o' :: 'n' :: '\n' :: u) = jsonTag from rfl)]
  show findClose (List.dropWhile isJsWs ('\n' :: u)) = _
  rw [List.dropWhile_cons, isJsWs_nl]
  simp

lemma tryFence_plain_tag (u : List Char) :
    tryFence ('\n' :: u) = findClose (u.dropWhile isJsWs) := by
  unfold tryFence
  have hne : ¬ (('\n' :: u).take 4 = jsonTag) := by
    intro heq
    rw [jsonTag] at heq
    cases u with
    | nil => cases heq
    | cons b v =>
      injection heq with h1 _
      exact absurd h1 (by decide)
  simp only [tryFence]
  rw [if_neg hne, List.dropWhile_cons, isJsWs_nl]
  simp

end Allstar

namespace Allstar

lemma jsTrim_fenced (pre v : List Char) :
    jsTrim ((btk :: pre) ++ v ++ ('\n' :: btk :: btk :: btk :: [])) =
      (btk :: pre) ++ v ++ ('\n' :: btk :: btk :: btk :: []) := by
  unfold jsTrim trimLeftWs
  rw [List.cons_append, List.cons_append, List.dropWhile_cons, isJsWs_btk]
  simp only [Bool.false_eq_true, if_false]
  have hshape : btk :: (pre ++ (v ++ ('\n' :: btk :: btk :: btk :: []))) =
      (btk :: (pre ++ (v ++ ('\n' :: btk :: btk :: [])))) ++ [btk] := by
    simp [List.append_assoc]
  rw [List.append_assoc, hshape, trimRight_append_nonws _ _ isJsWs_btk]

lemma capture_eq (v : List Char) (hv : hasTB v = false) :
    ∃ cap, findClose ((v ++ ('\n' :: btk :: btk :: btk :: [])).dropWhile isJsWs) = some cap ∧
      jsTrim cap = jsTrim v := by
  rw [dropWhileAppend]
  by_cases hemp : (v.dropWhile isJsWs).isEmpty = true
  · rw [if_pos hemp]
    have hv0 : v.dropWhile isJsWs = [] := List.isEmpty_iff.mp hemp
    refine ⟨[], rfl, ?_⟩
    show ([] : List Char) = jsTrim v
    unfold jsTrim trimLeftWs
    rw [hv0]
    rfl
  · rw [if_neg hemp]
    cases ht : v.dropWhile isJsWs with
    | nil =>
      rw [ht] at hemp
      exact absurd rfl hemp
    | cons x xs =>
      refine ⟨(x :: xs) ++ ['\n'], ?_, ?_⟩
      · have hTB : hasTB (x :: xs) = false := ht ▸ hasTB_dropWhile isJsWs v hv
        exact findClose_boundary (x :: xs) hTB '\n' (by decide) []
      · have hx : isJsWs x = false := dropWhile_head_false isJsWs v x xs ht
        unfold jsTrim trimLeftWs
        rw [List.cons_append, List.dropWhile_cons, hx]
        simp only [Bool.false_eq_true, if_false]
        rw [← List.cons_append, trimRight_append_ws _ _ isJsWs_nl, ht]

lemma extract_unwrapped (v : List Char) (h : hasTB v = false) :
    extractChars v = jsTrim v := by
  simp only [extractChars]
  rw [fenceScan_none_of_hasTB _ (hasTB_jsTrim _ h)]

lemma extract_wrapJson (t : String) (h : hasTB t.data = false) :
    extractChars (wrapJsonFence t).data = extractChars t.data := by
  obtain ⟨cap, hcap, htrim⟩ := capture_eq t.data h
  have hdata : (wrapJsonFence t).data =
      (btk :: [btk, btk, 'j', 's', 'o', 'n', '\n']) ++ t.data ++
        ('\n' :: btk :: btk :: btk :: []) := rfl
  rw [extract_unwrapped t.data h, hdata]
  simp only [extractChars]
  rw [jsTrim_fenced]
  have hshape : (btk :: [btk, btk, 'j', 's', 'o', 'n', '\n']) ++ t.data ++
      ('\n' :: btk :: btk :: btk :: []) =
      btk :: btk :: btk ::
        ('j' :: 's' :: 'o' :: 'n' :: '\n' :: (t.data ++ ('\n' :: btk :: btk :: btk :: []))) := by
    simp [List.append_assoc]
  rw [hshape]
  rw [fenceScan_open _ cap (by rw [tryFence_json_tag]; exact hcap)]
  exact htrim

lemma extract_wrapPlain (t : String) (h : hasTB t.data = false) :
    extractChars (wrapPlainFence t).data = extractChars t.data := by
  obtain ⟨cap, hcap, htrim⟩ := capture_eq t.data h
  have hdata : (wrapPlainFence t).data =
      (btk :: [btk, btk, '\n']) ++ t.data ++ ('\n' :: btk :: btk :: btk :: []) := rfl
  rw [extract_unwrapped t.data h, hdata]
  simp only [extractChars]
  rw [jsTrim_fenced]
  have hshape : (btk :: [btk, btk, '\n']) ++ t.data ++ ('\n' :: btk :: btk :: btk :: []) =
      btk :: btk :: btk :: ('\n' :: (t.data ++ ('\n' :: btk :: btk :: btk :: []))) := by
    simp [List.append_assoc]
  rw [hshape]
  rw [fenceScan_open _ cap (by rw [tryFence_plain_tag]; exact hcap)]
  exact htrim

lemma parseGradeResponse_toOption (text : String) :
    (parseGradeResponse text).toOption =
      (jsonParse (String.mk (extractChars text.data))).bind validateGradeCore := by
  simp only [parseGradeResponse, extractChars]
  cases hp : jsonParse (String.mk
      (match fenceScan (jsTrim text.data) with
        | some cap => jsTrim cap
        | none => jsTrim text.data)) with
  | none => rfl
  | some v =>
    show (validateGrade v (String.mk (jsTrim text.data))).toOption = validateGradeCore v
    unfold validateGrade
    cases hv : validateGradeCore v with
    | none => rfl
    | some r => rfl

/-- C6 amended: for every text `t` that does not contain the fence
delimiter (three consecutive backticks), the response-parsing step of
`gradeListing` produces the same `GradeResult` whether the raw model
output is `t` itself, `t` wrapped in a fenced code block with a `json`
language tag, or `t` wrapped in a fenced code block without a language
tag.  (The delimiter-free condition is necessary: see the
counterexample, where a fence delimiter inside a JSON string changes
the parse.) -/
theorem fenced_and_unfenced_parse_identically (t : String)
    (h : hasTB t.data = false) :
    (parseGradeResponse (wrapJsonFence t)).toOption = (parseGradeResponse t).toOption ∧
    (parseGradeResponse (wrapPlainFence t)).toOption = (parseGradeResponse t).toOption := by
  constructor
  · rw [parseGradeResponse_toOption, parseGradeResponse_toOption, extract_wrapJson t h]
  · rw [parseGradeResponse_toOption, parseGradeResponse_toOption, extract_wrapPlain t h]

/-- A delimiter-free grading response text. -/
def c6good : String := "\x7b\"score\": 2, \"grade\": \"B\", \"rationale\": \"ok\"\x7d"

/-- Witness for the amended C6 at a concrete well-formed response. -/
theorem fenced_and_unfenced_parse_identically_witness :
    (parseGradeResponse (wrapJsonFence c6good)).toOption =
      (parseGradeResponse c6good).toOption ∧
    (parseGradeResponse (wrapPlainFence c6good)).toOption =
      (parseGradeResponse c6good).toOption :=
  fenced_and_unfenced_parse_identically c6good (by decide)

end Allstar
